import Mathlib

/-!
Verification of the `@xivdyetools/logger` logging core.

This file gives a shallow embedding, in Lean, of the logging pipeline of the
repository (src/core/base-logger.ts together with the delegating child logger
and the browser preset's performance timer registry), and proves properties of
that embedding.  JavaScript objects used as log contexts are modelled as
association lists in insertion order, JavaScript's object-spread as a function
on such lists, the `unknown` error argument as an inductive type of JavaScript
values, and the sanitization regexes as explicit scanners over `List Char`
that mirror the left-to-right global-replace semantics of `String.replace`
with the concrete patterns appearing in the source.
-/

namespace XivLog

/-! ## Log levels and the level filter (base-logger.ts lines 11-12, 58-60) -/

/-- Log levels in order of severity, as in `LOG_LEVELS` of base-logger.ts. -/
def LOG_LEVELS : List String := ["debug", "info", "warn", "error"]

/-- JavaScript `Array.prototype.indexOf`: index of the first occurrence, `-1`
when the element is absent. -/
def jsIndexOf (xs : List String) (x : String) : Int :=
  go xs 0
where
  go : List String → Int → Int
    | [], _ => -1
    | y :: ys, i => if y = x then i else go ys (i + 1)

/-- Level filter on the raw configured-level string, as in
`BaseLogger.shouldLog`: `LOG_LEVELS.indexOf(level) >= LOG_LEVELS.indexOf(config.level)`. -/
def shouldLogLevel (configLevel lv : String) : Bool :=
  jsIndexOf LOG_LEVELS lv ≥ jsIndexOf LOG_LEVELS configLevel

/-- Severity rank taken from the specification's fixed total order
`debug < info < warn < error`. -/
def severityRank (lv : String) : Nat :=
  if lv = ("debug") then 0
  else if lv = ("info") then 1
  else if lv = ("warn") then 2
  else 3

/-! ## Context objects (JavaScript objects as insertion-ordered assoc lists) -/

/-- Values stored in a log context. -/
inductive Val where
  | vStr (s : String)
  | vNum (q : ℚ)
  | vBool (b : Bool)
  deriving DecidableEq, Repr

/-- A log context: a JavaScript object, modelled as its key/value entries in
insertion order. -/
abbrev Ctx := List (String × Val)

/-- Value of a key in a context (first entry wins, keys of a well-formed
JavaScript object are unique). -/
def ctxLookup (ctx : Ctx) (k : String) : Option Val :=
  match ctx with
  | [] => none
  | (k', v) :: rest => if k' = k then some v else ctxLookup rest k

/-- Key-presence test, JavaScript's `key in obj`. -/
def ctxHas (ctx : Ctx) (k : String) : Bool :=
  (ctxLookup ctx k).isSome

/-- JavaScript object spread `{...a, ...b}`: keys of `a` keep their position
(with `b`'s value on collision), new keys of `b` are appended in order. -/
def spread (a b : Ctx) : Ctx :=
  (a.map fun kv =>
    match ctxLookup b kv.1 with
    | some v => (kv.1, v)
    | none => kv) ++
  b.filter fun kv => ! ctxHas a kv.1

/-- Replace the value of every entry with key `k` by `v` (JavaScript's
`obj[k] = v` on a present key). -/
def ctxSet (ctx : Ctx) (k : String) (v : Val) : Ctx :=
  ctx.map fun kv => if kv.1 = k then (k, v) else kv

/-- The fixed redaction sentinel. -/
def REDACTED : String := "[REDACTED]"

/-- Field redaction over a context, as in `BaseLogger.redactSensitiveFields`:
for each configured field present as a key, overwrite its value with the
sentinel. -/
def redactSensitiveFields (fields : List String) (ctx : Ctx) : Ctx :=
  fields.foldl (fun acc f => if ctxHas acc f then ctxSet acc f (Val.vStr REDACTED) else acc) ctx

/-! ## Logger configuration and state (base-logger.ts lines 14-25, 33-46) -/

/-- Default fields to redact, `DEFAULT_REDACT_FIELDS` of base-logger.ts. -/
def DEFAULT_REDACT_FIELDS : List String :=
  ["password", "token", "secret", "authorization", "cookie", "api_key",
   "apiKey", "access_token", "refresh_token"]

/-- Logger configuration (types.ts `LoggerConfig`).  `prefixOpt` models the
optional `prefix` field; `redactFields` is `none` when the field is absent. -/
structure LoggerConfig where
  level : String
  format : String
  timestamps : Bool
  prefixOpt : Option String
  sanitizeErrors : Bool
  redactFields : Option (List String)
  deriving DecidableEq, Repr

/-- Configuration produced by `new BaseLogger({})`: the constructor defaults. -/
def defaultConfig : LoggerConfig :=
  { level := "info", format := "json", timestamps := true, prefixOpt := none,
    sanitizeErrors := true, redactFields := some DEFAULT_REDACT_FIELDS }

/-- Effective redact-field list, `this.config.redactFields || DEFAULT_REDACT_FIELDS`
(arrays are always truthy in JavaScript, so only an absent field falls back). -/
def effRedactFields (cfg : LoggerConfig) : List String :=
  cfg.redactFields.getD DEFAULT_REDACT_FIELDS

/-- Mutable state owned by one `BaseLogger` instance. -/
structure LoggerState where
  config : LoggerConfig
  globalContext : Ctx
  deriving DecidableEq, Repr

/-- Level filter of a logger instance, `BaseLogger.shouldLog`. -/
def shouldLog (cfg : LoggerConfig) (lv : String) : Bool :=
  shouldLogLevel cfg.level lv

/-! ## Message sanitization (base-logger.ts lines 133-162)

The source applies eight global, case-insensitive regex replacements in a
fixed order.  Each is embedded as a scanner over `List Char` that mirrors
JavaScript `String.replace` with a `/g` regex: scan left to right, at every
position try to match; on a match emit the replacement and resume after the
matched span, otherwise keep the character and advance by one.  The patterns
use no constructs beyond case-insensitive literals, `[_-]?`, `[=:]`, greedy
`\s*`/`\s+`/`\S+`/`[^\s,;]+`, a first-quote-terminated lazy quoted group, and
the negative lookahead `(?!Bearer\s)`; each is compiled below by hand, with
the relevant backtracking (quoted-then-unquoted alternation, optional key
separator) made explicit. -/

/-- ASCII case folding used for the `/i` flag. -/
def lowerNat (n : Nat) : Nat :=
  if 65 ≤ n ∧ n ≤ 90 then n + 32 else n

/-- Case-insensitive character comparison (ASCII, matching `/i` on the
source's all-ASCII patterns). -/
def lowerEq (c d : Char) : Bool :=
  lowerNat c.toNat = lowerNat d.toNat

/-- ECMAScript `\s`: WhiteSpace and LineTerminator, i.e. TAB, LF, VT, FF,
CR, SPACE, NBSP (U+00A0), U+1680, U+2000..U+200A, LS (U+2028), PS (U+2029),
U+202F, U+205F, U+3000 and ZWNBSP (U+FEFF). -/
def jsSpace (c : Char) : Bool :=
  let n := c.toNat
  n = 9 || n = 10 || n = 11 || n = 12 || n = 13 || n = 32 || n = 160 ||
  n = 0x1680 || (0x2000 ≤ n && n ≤ 0x200A) || n = 0x2028 || n = 0x2029 ||
  n = 0x202F || n = 0x205F || n = 0x3000 || n = 0xFEFF

/-- Quote characters recognised by the quoted-value alternative `["']`. -/
def isQuote (c : Char) : Bool :=
  c = '"' || c = '\''

/-- Case-insensitive literal match; returns the remaining input on success. -/
def matchCI : List Char → List Char → Option (List Char)
  | [], l => some l
  | _ :: _, [] => none
  | p :: ps, c :: cs => if lowerEq c p then matchCI ps cs else none

/-- Match a plain key literal, returning the number of characters consumed. -/
def keyMatchPlain (k : List Char) (l : List Char) : Option Nat :=
  match matchCI k l with
  | some _ => some k.length
  | none => none

/-- Match `k1[_-]?k2` (for `api[_-]?key`, `access[_-]?token`,
`refresh[_-]?token`): the greedy optional separator is tried first, then the
backtracked separator-less form. -/
def keyMatchOptSep (k1 k2 : List Char) (l : List Char) : Option Nat :=
  match matchCI k1 l with
  | none => none
  | some rest =>
    let withSep : Option Nat :=
      match rest with
      | c :: rest2 =>
        if c = '_' || c = '-' then
          match matchCI k2 rest2 with
          | some _ => some (k1.length + 1 + k2.length)
          | none => none
        else none
      | [] => none
    match withSep with
    | some n => some n
    | none =>
      match matchCI k2 rest with
      | some _ => some (k1.length + k2.length)
      | none => none

/-- Greedy `[^\s,;]+` span. -/
def unquotedSpan (l : List Char) : List Char :=
  l.takeWhile fun c => ! (jsSpace c || c = ',' || c = ';')

/-- Value alternative `(?:["']([^"']*?)["']|[^\s,;]+)`: the quoted branch
(lazy inner group, so the value ends at the first quote character of either
kind) is tried first; if the input starts with a quote that is never closed,
the regex backtracks into the unquoted branch, which may consume the quote
character itself.  Returns consumed length and the captured/consumed value. -/
def tryValueV : List Char → Option (Nat × List Char)
  | [] => none
  | c :: cs =>
    if isQuote c then
      let inner := cs.takeWhile fun d => ! isQuote d
      match cs.drop inner.length with
      | _ :: _ => some (inner.length + 2, inner)
      | [] =>
        let v := unquotedSpan (c :: cs)
        if v.length = 0 then none else some (v.length, v)
    else
      let v := unquotedSpan (c :: cs)
      if v.length = 0 then none else some (v.length, v)

/-- Pattern literal `bearer` used by the Bearer rule and the lookahead. -/
def kwBearer : List Char := "bearer".data

/-- Negative-lookahead test `(?=Bearer\s)` at a position (the authorization
rule fails when this holds). -/
def bearerNext (l : List Char) : Bool :=
  match matchCI kwBearer l with
  | some rest =>
    match rest with
    | c :: _ => jsSpace c
    | [] => false
  | none => false

/-- The delimiter class `[=:]` after a key. -/
def isDelim (c : Char) : Bool :=
  c = '=' || c = ':'

/-- Key matcher plus lookahead flag for one `key[=:]...` rule. -/
structure KVSpec where
  keyMatch : List Char → Option Nat
  lookBearer : Bool

/-- Try one `key[=:]\s*(?!Bearer\s)?(?:quoted|unquoted)` rule at the head of
the input.  Backtracking of the greedy `\s*` never changes the outcome for
these patterns (neither value branch can start with whitespace and the
lookahead fails identically), so the maximal whitespace run is committed.
Returns total matched length and the value span. -/
def tryKVv (spec : KVSpec) (l : List Char) : Option (Nat × List Char) :=
  match spec.keyMatch l with
  | none => none
  | some kn =>
    match l.drop kn with
    | [] => none
    | d :: rest =>
      if isDelim d then
        let ws := rest.takeWhile jsSpace
        let p := rest.drop ws.length
        if spec.lookBearer && bearerNext p then none
        else
          match tryValueV p with
          | some (vn, v) => some (kn + 1 + ws.length + vn, v)
          | none => none
      else none

/-- Try `Bearer\s+\S+` at the head of the input. -/
def tryBearerV (l : List Char) : Option (Nat × List Char) :=
  match matchCI kwBearer l with
  | none => none
  | some rest =>
    let ws := rest.takeWhile jsSpace
    if ws.length = 0 then none
    else
      let v := (rest.drop ws.length).takeWhile fun c => ! jsSpace c
      if v.length = 0 then none else some (6 + ws.length + v.length, v)

/-- Global-replace scanner: JavaScript `String.replace` with a `/g` regex.
The fuel argument is initialised to the input length; every recursive call
consumes at least one character, so the fuel never runs out. -/
def scanAux (tf : List Char → Option Nat) (repl : List Char) : Nat → List Char → List Char
  | _, [] => []
  | 0, l => l
  | fuel + 1, c :: cs =>
    match tf (c :: cs) with
    | some n => repl ++ scanAux tf repl fuel ((c :: cs).drop (max n 1))
    | none => c :: scanAux tf repl fuel cs

/-- Run one global replacement over a whole string. -/
def runReplace (tf : List Char → Option Nat) (repl : List Char) (l : List Char) : List Char :=
  scanAux tf repl l.length l

/-- One substitution rule of `sanitizeErrorMessage`. -/
structure SanRule where
  tryV : List Char → Option (Nat × List Char)
  repl : List Char

/-- Apply one rule as a global replacement. -/
def applyRule (r : SanRule) (l : List Char) : List Char :=
  runReplace (fun t => (r.tryV t).map Prod.fst) r.repl l

/-- Rule `/Bearer\s+\S+/gi → Bearer [REDACTED]`. -/
def bearerRule : SanRule := ⟨tryBearerV, "Bearer [REDACTED]".data⟩

/-- Spec of the `token[=:]` rule. -/
def tokenSpec : KVSpec := ⟨keyMatchPlain ("token").data, false⟩

/-- Spec of the `secret[=:]` rule. -/
def secretSpec : KVSpec := ⟨keyMatchPlain ("secret").data, false⟩

/-- Spec of the `password[=:]` rule. -/
def passwordSpec : KVSpec := ⟨keyMatchPlain ("password").data, false⟩

/-- Spec of the `api[_-]?key[=:]` rule. -/
def apiKeySpec : KVSpec := ⟨keyMatchOptSep ("api").data ("key").data, false⟩

/-- Spec of the `authorization[=:]` rule with the `(?!Bearer\s)` lookahead. -/
def authSpec : KVSpec := ⟨keyMatchPlain ("authorization").data, true⟩

/-- Spec of the `access[_-]?token[=:]` rule. -/
def accessSpec : KVSpec := ⟨keyMatchOptSep ("access").data ("token").data, false⟩

/-- Spec of the `refresh[_-]?token[=:]` rule. -/
def refreshSpec : KVSpec := ⟨keyMatchOptSep ("refresh").data ("token").data, false⟩

/-- Rule `/token[=:]\s*(?:["']([^"']*?)["']|[^\s,;]+)/gi → token=[REDACTED]`. -/
def tokenRule : SanRule :=
  ⟨tryKVv tokenSpec, "token=[REDACTED]".data⟩

/-- Rule for `secret[=:]`. -/
def secretRule : SanRule :=
  ⟨tryKVv secretSpec, "secret=[REDACTED]".data⟩

/-- Rule for `password[=:]`. -/
def passwordRule : SanRule :=
  ⟨tryKVv passwordSpec, "password=[REDACTED]".data⟩

/-- Rule for `api[_-]?key[=:]`. -/
def apiKeyRule : SanRule :=
  ⟨tryKVv apiKeySpec, "api_key=[REDACTED]".data⟩

/-- Rule for `authorization[=:]` with the `(?!Bearer\s)` lookahead. -/
def authRule : SanRule :=
  ⟨tryKVv authSpec, "authorization=[REDACTED]".data⟩

/-- Rule for `access[_-]?token[=:]`. -/
def accessRule : SanRule :=
  ⟨tryKVv accessSpec, "access_token=[REDACTED]".data⟩

/-- Rule for `refresh[_-]?token[=:]`. -/
def refreshRule : SanRule :=
  ⟨tryKVv refreshSpec, "refresh_token=[REDACTED]".data⟩

/-- The seven `key[=:]value` rules, in source order. -/
def kvRules : List SanRule :=
  [tokenRule, secretRule, passwordRule, apiKeyRule, authRule, accessRule, refreshRule]

/-- All eight substitution rules of `sanitizeErrorMessage`, in source order. -/
def sanRules : List SanRule := bearerRule :: kvRules

/-- `BaseLogger.sanitizeErrorMessage` on character lists. -/
def sanitizeList (l : List Char) : List Char :=
  sanRules.foldl (fun acc r => applyRule r acc) l

/-- `BaseLogger.sanitizeErrorMessage`. -/
def sanitizeErrorMessage (s : String) : String :=
  ⟨sanitizeList s.data⟩

/-- A rule finds no non-sentinel value at this position. -/
def matchedValueOK (r : SanRule) (t : List Char) : Bool :=
  match r.tryV t with
  | some (_, v) => v = REDACTED.data
  | none => true

/-- Formalisation of "no raw secret value remains reachable after a key of
the listed families": at every position of the string, whenever one of the
seven key patterns (with their own value syntax and the Bearer exclusion for
`authorization`) matches, the value it finds is exactly the sentinel. -/
def noRawSecret (l : List Char) : Bool :=
  l.tails.all fun t => kvRules.all fun r => matchedValueOK r t

/-! ## Error formatting and entry construction (base-logger.ts lines 62-131) -/

/-- JavaScript values passed as the `unknown` error argument.  `jsError`
models an `Error` instance (with an optional string-typed `code` property and
optional stack); `jsObj` models a plain object with no custom string
conversion. -/
inductive JSVal where
  | jsError (name message : String) (code : Option String) (stack : Option String)
  | jsStr (s : String)
  | jsNum (q : ℚ)
  | jsBool (b : Bool)
  | jsNull
  | jsUndefined
  | jsObj
  deriving DecidableEq, Repr

/-- JavaScript truthiness of an error argument, deciding `if (error)`. -/
def truthy : JSVal → Bool
  | .jsError _ _ _ _ => true
  | .jsStr s => s ≠ ""
  | .jsNum q => q ≠ 0
  | .jsBool b => b
  | .jsNull => false
  | .jsUndefined => false
  | .jsObj => true

/-- JavaScript `String(v)` conversion on the modelled values. -/
def jsToString : JSVal → String
  | .jsError name message _ _ => name ++ (": ") ++ message
  | .jsStr s => s
  | .jsNum q => toString q
  | .jsBool b => if b then ("true") else ("false")
  | .jsNull => "null"
  | .jsUndefined => "undefined"
  | .jsObj => "[object Object]"

/-- The `error` field of a `LogEntry` (types.ts). -/
structure ErrorInfo where
  name : String
  message : String
  code : Option String
  stack : Option String
  deriving DecidableEq, Repr

/-- `BaseLogger.formatError`: structured errors keep their name, their
message is sanitized when `sanitizeErrors` is set (which also drops the
stack), a string `code` is carried over; any non-`Error` value becomes
`{name: "Unknown", message: String(error)}`. -/
def formatError (cfg : LoggerConfig) : JSVal → ErrorInfo
  | .jsError name message code stack =>
    { name := name
      message := if cfg.sanitizeErrors then sanitizeErrorMessage message else message
      code := code
      stack := if cfg.sanitizeErrors then none else stack }
  | e => { name := "Unknown", message := jsToString e, code := none, stack := none }

/-- A structured log entry (types.ts `LogEntry`). -/
structure LogEntry where
  level : String
  message : String
  timestamp : String
  context : Option Ctx
  error : Option ErrorInfo
  deriving DecidableEq, Repr

/-- `BaseLogger.mergeContext`: `undefined` when no caller context was given
and the global context is empty; otherwise the redacted spread of the global
context under the caller context. -/
def mergeContext (cfg : LoggerConfig) (g : Ctx) (ctx : Option Ctx) : Option Ctx :=
  if ctx = none ∧ g.length = 0 then none
  else some (redactSensitiveFields (effRedactFields cfg) (spread g (ctx.getD [])))

/-- `BaseLogger.createEntry`.  The timestamp is the capture-time clock value,
passed in as `now`; the `context` field is set only when the merged context
is non-empty, and the `error` field only when the error argument is truthy. -/
def createEntry (cfg : LoggerConfig) (g : Ctx) (level message : String)
    (ctx : Option Ctx) (err : JSVal) (now : String) : LogEntry :=
  { level := level
    message :=
      match cfg.prefixOpt with
      | some p => if p = ("") then message else ("[") ++ p ++ ("] ") ++ message
      | none => message
    timestamp := now
    context :=
      match mergeContext cfg g ctx with
      | some m => if 0 < m.length then some m else none
      | none => none
    error := if truthy err then some (formatError cfg err) else none }

/-- One log call at an explicit severity: the entry handed to the transport's
`write`, or `none` when the level filter rejects the call.  `debug`, `info`
and `warn` instantiate this with `err = jsUndefined`; `error` passes its
error argument through. -/
def logAt (st : LoggerState) (level message : String) (ctx : Option Ctx)
    (err : JSVal) (now : String) : Option LogEntry :=
  if shouldLog st.config level then
    some (createEntry st.config st.globalContext level message ctx err now)
  else none

/-- `BaseLogger.setContext`: merge into the global context, caller wins. -/
def setContext (st : LoggerState) (ctx : Ctx) : LoggerState :=
  { st with globalContext := spread st.globalContext ctx }

/-! ## Delegating child logger (base-logger.ts lines 212-295)

`BaseLogger.child(context)` returns `new DelegatingLogger(this, context)`:
a wrapper holding a non-owning reference to the parent plus one incremental
context layer, with no configuration or transport of its own.  The pair of a
parent state and a layer is modelled as a world; operations that go through
the parent reference read the parent component as it is now. -/

/-- A delegating child logger: the parent it forwards to and its own layer. -/
structure DWorld where
  parent : LoggerState
  layer : Ctx
  deriving DecidableEq, Repr

/-- `BaseLogger.child`. -/
def childOf (st : LoggerState) (ctx : Ctx) : DWorld :=
  { parent := st, layer := ctx }

/-- `DelegatingLogger.mergeContext`: overlay the call-site context on the
child layer; with no call-site context the layer itself is passed. -/
def dMergeContext (layer : Ctx) (ctx : Option Ctx) : Ctx :=
  match ctx with
  | some c => spread layer c
  | none => layer

/-- A log call through the delegating logger: it forwards to the parent with
the layered context. -/
def dLogAt (w : DWorld) (level message : String) (ctx : Option Ctx)
    (err : JSVal) (now : String) : Option LogEntry :=
  logAt w.parent level message (some (dMergeContext w.layer ctx)) err now

/-- `DelegatingLogger.setContext`: `Object.assign(this.childContext, context)`
mutates only the child's own layer. -/
def dSetContext (w : DWorld) (ctx : Ctx) : DWorld :=
  { w with layer := spread w.layer ctx }

/-- `DelegatingLogger.child`: a new delegating logger on the same parent with
the merged layer. -/
def dChild (w : DWorld) (ctx : Ctx) : DWorld :=
  { w with layer := spread w.layer ctx }

/-- `setContext` called on the parent of a delegating logger: the child holds
the parent by reference, so the world's parent component is updated in
place. -/
def parentSetContext (w : DWorld) (ctx : Ctx) : DWorld :=
  { w with parent := setContext w.parent ctx }

/-! ## Performance timer registry (browser preset, part_006 lines 421-566) -/

/-- Aggregated metrics for one label (`MetricsData`). -/
structure MetricsData where
  count : ℚ
  totalTime : ℚ
  minTime : ℚ
  maxTime : ℚ
  avgTime : ℚ
  deriving DecidableEq, Repr

/-- The two maps of the registry: aggregated metrics and in-flight timers,
both keyed by label in insertion order. -/
structure PerfState where
  metricsStore : List (String × MetricsData)
  activeTimers : List (String × ℚ)
  deriving DecidableEq, Repr

/-- First-match lookup in a label-keyed map. -/
def mapLookup {α : Type} (m : List (String × α)) (k : String) : Option α :=
  match m with
  | [] => none
  | (k', v) :: rest => if k' = k then some v else mapLookup rest k

/-- JavaScript `Map.set`: update in place when present, append otherwise. -/
def mapSet {α : Type} (m : List (String × α)) (k : String) (v : α) : List (String × α) :=
  match m with
  | [] => [(k, v)]
  | (k', v') :: rest => if k' = k then (k, v) :: rest else (k', v') :: mapSet rest k v

/-- JavaScript `Map.delete`. -/
def mapDelete {α : Type} (m : List (String × α)) (k : String) : List (String × α) :=
  match m with
  | [] => []
  | (k', v') :: rest => if k' = k then rest else (k', v') :: mapDelete rest k

/-- Result of `perf.start`: the new registry state, the returned success
flag, and whether `console.warn` was called. -/
structure StartRes where
  state : PerfState
  ok : Bool
  warned : Bool
  deriving DecidableEq, Repr

/-- Result of `perf.end`: the new registry state, the returned duration, and
whether `console.warn` was called. -/
structure EndRes where
  state : PerfState
  duration : ℚ
  warned : Bool
  deriving DecidableEq, Repr

/-- `perf.start(label)` at clock value `now`: refuses to overwrite an active
timer (warn, return `false`); otherwise records the start time. -/
def perfStart (s : PerfState) (label : String) (now : ℚ) : StartRes :=
  if (mapLookup s.activeTimers label).isSome then
    { state := s, ok := false, warned := true }
  else
    { state := { s with activeTimers := mapSet s.activeTimers label now },
      ok := true, warned := false }

/-- `perf.end(label)` at clock value `now`: warn and return zero with no
state change when no timer is active; otherwise remove the timer and fold the
duration into the label's aggregated metrics. -/
def perfEnd (s : PerfState) (label : String) (now : ℚ) : EndRes :=
  match mapLookup s.activeTimers label with
  | none => { state := s, duration := 0, warned := true }
  | some startTime =>
    let duration := now - startTime
    let active := mapDelete s.activeTimers label
    let store :=
      match mapLookup s.metricsStore label with
      | some m =>
        let count := m.count + 1
        let total := m.totalTime + duration
        mapSet s.metricsStore label
          { count := count, totalTime := total,
            minTime := min m.minTime duration, maxTime := max m.maxTime duration,
            avgTime := total / count }
      | none =>
        mapSet s.metricsStore label
          { count := 1, totalTime := duration, minTime := duration,
            maxTime := duration, avgTime := duration }
    { state := { metricsStore := store, activeTimers := active },
      duration := duration, warned := false }

/-! ## Timing helpers of the base logger (base-logger.ts lines 222-240) -/

/-- Rendering of `duration.toFixed(2)` used in the `time` message.  The model
rounds to hundredths and prints two decimals; no claim depends on its exact
digits. -/
def toFixed2 (q : ℚ) : String :=
  let c : ℤ := ⌊q * 100 + 1 / 2⌋
  let whole := c / 100
  let frac := (c % 100).natAbs
  toString whole ++ (".") ++ (if frac < 10 then ("0") else ("")) ++ toString frac

/-- The entry emitted by the closure returned from `time(label)`, evaluated
at start/end clock values: a `debug`-level call with the formatted message
and a `{duration, label}` context (or nothing, when the filter rejects
`debug`). -/
def timeEndEmit (st : LoggerState) (label : String) (startT endT : ℚ)
    (now : String) : Option LogEntry :=
  logAt st ("debug") (label ++ (": ") ++ toFixed2 (endT - startT) ++ ("ms"))
    (some [(("duration"), Val.vNum (endT - startT)), (("label"), Val.vStr label)])
    JSVal.jsUndefined now

/-- `BaseLogger.timeAsync(label, fn)`: start a timer, run `fn`, and end the
timer in a `finally`.  The wrapped computation's outcome is an `Except`
(resolution or rejection); the translation of `try/finally` runs the
timer-end emission on both branches and returns the outcome unchanged,
together with the list of entries written to the transport. -/
def timeAsyncRun {E A : Type} (st : LoggerState) (label : String)
    (startT endT : ℚ) (now : String) (action : Except E A) :
    Except E A × List LogEntry :=
  let emitted := (timeEndEmit st label startT endT now).toList
  match action with
  | .ok v => (.ok v, emitted)
  | .error e => (.error e, emitted)

/-! ## Derived notions used in the statements -/

/-- Left-biased choice on optional values (JavaScript `??`-style fallback),
used to state lookup chains. -/
def orO (a b : Option Val) : Option Val :=
  match a with
  | some v => some v
  | none => b

/-- View of one key of a context after redaction: present configured fields
carry the sentinel, all other keys their looked-up value. -/
def redactedView (fields : List String) (k : String) (o : Option Val) : Option Val :=
  if k ∈ fields ∧ o.isSome then some (Val.vStr REDACTED) else o

/-- Precedence chain of the three context layers: call-site over child layer
over parent global context. -/
def chain3 (G C L : Ctx) (k : String) : Option Val :=
  orO (ctxLookup L k) (orO (ctxLookup C k) (ctxLookup G k))

/-! ## Key families of the sanitization claim -/

/-- One key family of the sanitization claim: the literal key as it appears
in a message, and the fully-sanitized form the claim expects for it. -/
structure Family where
  key : List Char
  out : List Char
  deriving DecidableEq, Repr

/-- Family `token=`. -/
def famToken : Family := ⟨"token".data, "token=[REDACTED]".data⟩

/-- Family `secret=`. -/
def famSecret : Family := ⟨"secret".data, "secret=[REDACTED]".data⟩

/-- Family `password=`. -/
def famPassword : Family := ⟨"password".data, "password=[REDACTED]".data⟩

/-- Family `api_key=`. -/
def famApiKey : Family := ⟨"api_key".data, "api_key=[REDACTED]".data⟩

/-- Family `authorization=` (non-Bearer values). -/
def famAuth : Family := ⟨"authorization".data, "authorization=[REDACTED]".data⟩

/-- Family `access_token=`. -/
def famAccess : Family := ⟨"access_token".data, "access_token=[REDACTED]".data⟩

/-- Family `refresh_token=`. -/
def famRefresh : Family := ⟨"refresh_token".data, "refresh_token=[REDACTED]".data⟩

/-- The seven key families named by the claim. -/
def families : List Family :=
  [famToken, famSecret, famPassword, famApiKey, famAuth, famAccess, famRefresh]

/-- Characters of an unquoted value: anything except the whitespace, comma
and semicolon terminators of `[^\s,;]+`.  Quotes (beyond the first
character) and `=`/`:` are allowed. -/
def safeUnqChar (c : Char) : Bool :=
  ! (jsSpace c || c = ',' || c = ';')

/-- Characters of a well-behaved quoted value: no quote characters (an
embedded quote terminates the lazy quoted group early) and no `=`/`:`
delimiters (an inner `key=value` match can consume the closing quote and
leak part of the secret).  Spaces, commas and semicolons are allowed. -/
def safeQChar (c : Char) : Bool :=
  ! (isQuote c || c = '=' || c = ':')

/-- No position of the string starts a `Bearer\s+\S+` match.  Required of a
quoted value (with its closing quote), since a Bearer match inside the value
can consume the closing quote and leak part of the secret. -/
def bearerFree (l : List Char) : Bool :=
  l.tails.all fun t => (tryBearerV t).isNone

/-- Unquoted-form message `key` `delim` `value`. -/
def mkUnq (f : Family) (d : Char) (v : List Char) : List Char :=
  f.key ++ d :: v

/-- Quoted-form message `key` `delim` `"value"`. -/
def mkQuoted (f : Family) (d : Char) (v : List Char) : List Char :=
  f.key ++ d :: '"' :: (v ++ ['"'])

/-- The C2 counterexample input: a double-quoted `token` value containing an
embedded single quote (the secret is `x'y z`). -/
def cexC2 : List Char :=
  "token=".data ++ ['"', 'x', '\'', 'y', ' ', 'z', '"']

/-! ## Basic lemmas about the pipeline -/

theorem orO_assoc (a b c : Option Val) : orO a (orO b c) = orO (orO a b) c := by
  cases a <;> rfl

theorem logAt_isSome (st : LoggerState) (lv msg : String) (ctx : Option Ctx)
    (err : JSVal) (now : String) :
    (logAt st lv msg ctx err now).isSome = shouldLog st.config lv := by
  by_cases h : shouldLog st.config lv = true
  · simp [logAt, h]
  · simp [logAt, h]

theorem jsIndexOf_go_of_not_mem (x : String) (xs : List String) (i : Int)
    (h : x ∉ xs) : jsIndexOf.go x xs i = -1 := by
  induction xs generalizing i with
  | nil => rfl
  | cons y ys ih =>
    have hy : ¬ y = x := fun hxy => h (hxy ▸ List.mem_cons_self y ys)
    have hys : x ∉ ys := fun hm => h (List.mem_cons_of_mem y hm)
    simp [jsIndexOf.go, hy, ih _ hys]

theorem jsIndexOf_of_not_mem (x : String) (xs : List String) (h : x ∉ xs) :
    jsIndexOf xs x = -1 :=
  jsIndexOf_go_of_not_mem x xs 0 h

/-! ## Claim C1: the level filter -/

/-- C1: for a configured minimum level and a call severity both among the
four severities, the log call hands an entry to the transport's `write` iff
the call severity's rank is at least the configured minimum's rank under the
fixed order `debug < info < warn < error` (equal severity passes). -/
theorem c1_level_filter (cfg : LoggerConfig) (g : Ctx) (lv msg now : String)
    (ctx : Option Ctx) (err : JSVal)
    (hlv : lv ∈ LOG_LEVELS) (hm : cfg.level ∈ LOG_LEVELS) :
    ((logAt ⟨cfg, g⟩ lv msg ctx err now).isSome = true) ↔
      severityRank cfg.level ≤ severityRank lv := by
  rw [logAt_isSome]
  show (shouldLogLevel cfg.level lv = true) ↔ _
  simp only [LOG_LEVELS, List.mem_cons, List.not_mem_nil, or_false] at hlv hm
  rcases hlv with h1 | h1 | h1 | h1 <;> subst h1 <;>
    rcases hm with h2 | h2 | h2 | h2 <;> rw [h2] <;> decide

/-- Witness for C1 at a concrete configuration (`warn` call on an
`info`-level logger). -/
theorem c1_level_filter_witness :
    ((("warn") ∈ LOG_LEVELS ∧ defaultConfig.level ∈ LOG_LEVELS) ∧
      (((logAt ⟨defaultConfig, []⟩ ("warn") ("m") none JSVal.jsUndefined ("t")).isSome = true) ↔
        severityRank defaultConfig.level ≤ severityRank ("warn"))) :=
  ⟨⟨by decide, by decide⟩,
    c1_level_filter defaultConfig [] ("warn") ("m") ("t") none JSVal.jsUndefined
      (by decide) (by decide)⟩

/-! ## Claim C10: unknown configured level -/

/-- C10: a logger configured with a level string outside the four recognised
severities logs everything: `indexOf` yields `-1` for the configured level,
every recognised severity has index `≥ 0 > -1`, so every call reaches the
transport. -/
theorem c10_unknown_level_always_logs (cfg : LoggerConfig) (g : Ctx)
    (lv msg now : String) (ctx : Option Ctx) (err : JSVal)
    (hm : cfg.level ∉ LOG_LEVELS) (hlv : lv ∈ LOG_LEVELS) :
    (logAt ⟨cfg, g⟩ lv msg ctx err now).isSome = true := by
  rw [logAt_isSome]
  show shouldLogLevel cfg.level lv = true
  have hneg : jsIndexOf LOG_LEVELS cfg.level = -1 :=
    jsIndexOf_of_not_mem cfg.level LOG_LEVELS hm
  simp only [LOG_LEVELS, List.mem_cons, List.not_mem_nil, or_false] at hlv
  rcases hlv with h1 | h1 | h1 | h1 <;> subst h1 <;>
    simp [shouldLogLevel, hneg] <;> decide

/-- Witness for C10: a logger configured with the unrecognised level
`verbose` lets a `debug` call through. -/
theorem c10_unknown_level_witness :
    (({ defaultConfig with level := ("verbose") } : LoggerConfig).level ∉ LOG_LEVELS ∧
      ("debug") ∈ LOG_LEVELS) ∧
    (logAt ⟨{ defaultConfig with level := ("verbose") }, []⟩ ("debug") ("m") none
      JSVal.jsUndefined ("t")).isSome = true :=
  ⟨⟨by decide, by decide⟩,
    c10_unknown_level_always_logs _ [] ("debug") ("m") ("t") none JSVal.jsUndefined
      (by decide) (by decide)⟩

/-! ## Claim C3: `authorization=Bearer ...` is handled by the bearer rule only -/

/-- C3: sanitizing `authorization=Bearer abc123` rewrites the value portion
to exactly `Bearer [REDACTED]`: the bearer rule (applied first) consumes the
token, and the later authorization rule's `(?!Bearer\s)` lookahead refuses to
re-match the substituted text, so the result is neither double-redacted nor
malformed. -/
theorem c3_bearer_only : sanitizeErrorMessage ("authorization=Bearer abc123") =
    ("authorization=Bearer [REDACTED]") := by decide

/-! ## Claim C7: the timer registry refuses to overwrite an active label -/

theorem mapLookup_set_self {α : Type} (m : List (String × α)) (k : String) (v : α) :
    mapLookup (mapSet m k v) k = some v := by
  induction m with
  | nil => simp [mapSet, mapLookup]
  | cons kv rest ih =>
    by_cases h : kv.1 = k
    · simp [mapSet, mapLookup, h]
    · simp [mapSet, mapLookup, h, ih]

/-- C7: starting a timer under a label that is already active warns, returns
`false`, leaves the stored start time unchanged, and a later `end` measures
from the original start time. -/
theorem c7_start_no_overwrite (s : PerfState) (label : String) (t1 t2 t3 : ℚ)
    (h : mapLookup s.activeTimers label = none) :
    (perfStart (perfStart s label t1).state label t2).ok = false ∧
    (perfStart (perfStart s label t1).state label t2).warned = true ∧
    mapLookup (perfStart (perfStart s label t1).state label t2).state.activeTimers label =
      some t1 ∧
    (perfEnd (perfStart (perfStart s label t1).state label t2).state label t3).duration =
      t3 - t1 := by
  simp [perfStart, perfEnd, h, mapLookup_set_self]

/-- Witness for C7 on the empty registry with concrete clock values. -/
theorem c7_start_no_overwrite_witness :
    (mapLookup (PerfState.mk [] []).activeTimers ("op") = none) ∧
    ((perfStart (perfStart (PerfState.mk [] []) ("op") 1).state ("op") 2).ok = false ∧
     (perfStart (perfStart (PerfState.mk [] []) ("op") 1).state ("op") 2).warned = true ∧
     mapLookup (perfStart (perfStart (PerfState.mk [] []) ("op") 1).state ("op") 2).state.activeTimers
       ("op") = some 1 ∧
     (perfEnd (perfStart (perfStart (PerfState.mk [] []) ("op") 1).state ("op") 2).state ("op") 5).duration =
       5 - 1) :=
  ⟨by decide, c7_start_no_overwrite (PerfState.mk [] []) ("op") 1 2 5 (by decide)⟩

/-! ## Claim C8: `timeAsync` propagates outcomes and always emits the timing log -/

/-- C8: `timeAsync(label, fn)` returns `fn`'s outcome unchanged (value on
resolution, rejection on rejection), and in both cases the timer-end cleanup
emits exactly one `debug`-level timing entry, subject to the level filter. -/
theorem c8_time_async_propagates {E A : Type} (st : LoggerState) (label : String)
    (t0 t1 : ℚ) (now : String) (action : Except E A) :
    (timeAsyncRun st label t0 t1 now action).1 = action ∧
    (timeAsyncRun st label t0 t1 now action).2.length =
      (if shouldLog st.config ("debug") then 1 else 0) ∧
    (∀ e ∈ (timeAsyncRun st label t0 t1 now action).2, e.level = ("debug")) := by
  refine ⟨?_, ?_, ?_⟩ <;>
    cases action <;>
      by_cases h : shouldLog st.config ("debug") = true <;>
        simp_all [timeAsyncRun, timeEndEmit, logAt, createEntry]

/-! ## Claim C9: formatting of non-Error error values -/

/-- C9 counterexample: the claim asserts that `error(message, e)` with
`e = null` produces an entry whose `error` field is
`{name: "Unknown", message: "null"}`; in the code `createEntry` guards the
error field with JavaScript truthiness (`if (error)`), so for `null` the
emitted entry carries no `error` field at all. -/
theorem c9_falsy_error_counterexample :
    ¬ ((logAt ⟨defaultConfig, []⟩ ("error") ("m") none JSVal.jsNull ("t")).map
        (fun e => e.error) =
      some (some ⟨("Unknown"), ("null"), none, none⟩)) := by decide

/-- C9 as amended: for an `error(message, e)` call that passes the level
filter with `e` not a structured `Error`, the emitted entry's `error` field
is `{name: "Unknown", message: String(e)}` when `e` is truthy (non-empty
strings, objects, ...), and is omitted entirely when `e` is falsy (`null`,
`undefined`, the empty string, `0`, `false`). -/
theorem c9_unknown_error_format (st : LoggerState) (msg now : String)
    (ctx : Option Ctx) (e : JSVal)
    (hne : ∀ n m c s, e ≠ JSVal.jsError n m c s)
    (hs : shouldLog st.config ("error") = true) :
    ∃ entry, logAt st ("error") msg ctx e now = some entry ∧
      entry.error = (if truthy e then some ⟨("Unknown"), jsToString e, none, none⟩ else none) := by
  refine ⟨createEntry st.config st.globalContext ("error") msg ctx e now, by simp [logAt, hs], ?_⟩
  show (if truthy e then some (formatError st.config e) else none) = _
  cases e with
  | jsError n m c s => exact absurd rfl (hne n m c s)
  | _ => rfl

/-- Witness for C9 at a concrete truthy string error. -/
theorem c9_unknown_error_format_witness :
    ∃ entry, logAt ⟨defaultConfig, []⟩ ("error") ("m") none (JSVal.jsStr ("oops")) ("t") =
        some entry ∧
      entry.error = (if truthy (JSVal.jsStr ("oops")) then
        some ⟨("Unknown"), jsToString (JSVal.jsStr ("oops")), none, none⟩ else none) :=
  c9_unknown_error_format ⟨defaultConfig, []⟩ ("m") ("t") none (JSVal.jsStr ("oops"))
    (fun n m c s h => JSVal.noConfusion h) (by decide)

/-! ## Lookup lemmas for context merging and redaction -/

theorem ctxLookup_append (l1 l2 : Ctx) (k : String) :
    ctxLookup (l1 ++ l2) k = (ctxLookup l1 k).orElse (fun _ => ctxLookup l2 k) := by
  induction l1 with
  | nil => simp [ctxLookup, Option.orElse]
  | cons kv rest ih =>
    by_cases h : kv.1 = k <;> simp [ctxLookup, h, ih, Option.orElse]

theorem ctxLookup_spread_map (a b : Ctx) (k : String) :
    ctxLookup (a.map fun kv =>
      match ctxLookup b kv.1 with
      | some v => (kv.1, v)
      | none => kv) k =
    (ctxLookup a k).map fun v => (ctxLookup b k).getD v := by
  induction a with
  | nil => simp [ctxLookup]
  | cons kv rest ih =>
    by_cases h : kv.1 = k
    · subst h
      cases hb : ctxLookup b kv.1 <;> simp [ctxLookup, hb]
    · cases hb : ctxLookup b kv.1 <;> simp [ctxLookup, hb, h, ih]

theorem ctxLookup_spread_filter (a b : Ctx) (k : String) :
    ctxLookup (b.filter fun kv => ! ctxHas a kv.1) k =
    (if ctxHas a k then none else ctxLookup b k) := by
  induction b with
  | nil => simp [ctxLookup]
  | cons kv rest ih =>
    by_cases hk : kv.1 = k
    · subst hk
      by_cases ha : ctxHas a kv.1 <;> simp [List.filter, ctxLookup, ha, ih]
    · by_cases ha : ctxHas a kv.1 <;> simp [List.filter, ctxLookup, ha, hk, ih]

/-- Lookup in a JavaScript spread: the overriding object wins, the base
object is the fallback. -/
theorem ctxLookup_spread (a b : Ctx) (k : String) :
    ctxLookup (spread a b) k = orO (ctxLookup b k) (ctxLookup a k) := by
  rw [spread, ctxLookup_append, ctxLookup_spread_map, ctxLookup_spread_filter]
  cases ha : ctxLookup a k <;> cases hb : ctxLookup b k <;>
    simp [orO, Option.orElse, ctxHas, ha, hb]

theorem spread_nil (a : Ctx) : spread a [] = a := by
  rw [spread]
  have hmap : (a.map fun kv =>
      match ctxLookup [] kv.1 with
      | some v => (kv.1, v)
      | none => kv) = a := by
    induction a with
    | nil => rfl
    | cons kv rest ih => simp [ctxLookup] at ih ⊢
  simp [hmap, List.filter]

theorem ctxLookup_ctxSet (ctx : Ctx) (f : String) (v : Val) (k : String) :
    ctxLookup (ctxSet ctx f v) k =
      (if f = k then (ctxLookup ctx k).map fun _ => v else ctxLookup ctx k) := by
  induction ctx with
  | nil => by_cases h : f = k <;> simp [ctxSet, ctxLookup, h]
  | cons kv rest ih =>
    show ctxLookup ((if kv.1 = f then (f, v) else kv) :: ctxSet rest f v) k = _
    by_cases hf : kv.1 = f
    · rw [if_pos hf]
      by_cases hk : f = k
      · subst hk
        simp [ctxLookup, hf]
      · have hkvk : ¬ kv.1 = k := by rw [hf]; exact hk
        simp [ctxLookup, hk, hkvk, ih]
    · rw [if_neg hf]
      by_cases hk : kv.1 = k
      · have hfk : ¬ f = k := fun h => hf (by rw [h, hk])
        simp [ctxLookup, hk, hfk]
      · simp [ctxLookup, hk, ih]

/-- Lookup after field redaction: a configured field that is present maps to
the sentinel, everything else is untouched. -/
theorem ctxLookup_redact (fields : List String) (ctx : Ctx) (k : String) :
    ctxLookup (redactSensitiveFields fields ctx) k =
      (if k ∈ fields ∧ (ctxLookup ctx k).isSome then some (Val.vStr REDACTED)
       else ctxLookup ctx k) := by
  induction fields generalizing ctx with
  | nil => simp [redactSensitiveFields]
  | cons f fs ih =>
    show ctxLookup (redactSensitiveFields fs
      (if ctxHas ctx f then ctxSet ctx f (Val.vStr REDACTED) else ctx)) k = _
    rw [ih]
    by_cases hcf : ctxHas ctx f
    · simp only [hcf, if_true]
      rw [ctxLookup_ctxSet]
      by_cases hfk : f = k
      · subst hfk
        cases hc : ctxLookup ctx f <;>
          simp_all [List.mem_cons, ctxHas]
      · have hkf : ¬ k = f := fun h => hfk h.symm
        simp [hfk, List.mem_cons, hkf]
    · simp only [hcf, if_false]
      by_cases hfk : f = k
      · subst hfk
        have : ctxLookup ctx f = none := by
          cases hc : ctxLookup ctx f
          · rfl
          · exact absurd (by simp [ctxHas, hc]) hcf
        simp [this, List.mem_cons]
      · have hkf : ¬ k = f := fun h => hfk h.symm
        simp [List.mem_cons, hkf]

theorem lenGuard_getD (m : Ctx) :
    ((if 0 < m.length then some m else none : Option Ctx).getD []) = m := by
  cases m <;> simp

theorem createEntry_ctx_lookup (cfg : LoggerConfig) (G c : Ctx) (lv msg : String)
    (err : JSVal) (now : String) (k : String) :
    ctxLookup (((createEntry cfg G lv msg (some c) err now).context).getD []) k =
      redactedView (effRedactFields cfg) k (orO (ctxLookup c k) (ctxLookup G k)) := by
  have hm : mergeContext cfg G (some c) =
      some (redactSensitiveFields (effRedactFields cfg) (spread G c)) := by
    simp [mergeContext]
  show ctxLookup ((match mergeContext cfg G (some c) with
    | some m => if 0 < m.length then some m else none
    | none => none).getD []) k = _
  rw [hm, lenGuard_getD, ctxLookup_redact, ctxLookup_spread]
  rfl

theorem dLogAt_eq (st : LoggerState) (layer : Ctx) (lv msg : String) (ctx : Option Ctx)
    (err : JSVal) (now : String) (hs : shouldLog st.config lv = true) :
    dLogAt ⟨st, layer⟩ lv msg ctx err now =
      some (createEntry st.config st.globalContext lv msg
        (some (dMergeContext layer ctx)) err now) := by
  simp [dLogAt, logAt, hs]

/-! ## Claim C4: three-layer context precedence through a child logger -/

/-- C4 counterexample: with parent global context `{password: "x"}`, child
layer `{b: 2}`, and call-site `{c: 3}`, the emitted context is not the plain
precedence union of the three layers — field redaction replaces the
`password` value with the sentinel first. -/
theorem c4_union_counterexample :
    ¬ ((dLogAt (childOf ⟨defaultConfig, [(("password"), Val.vStr ("x"))]⟩
          [(("b"), Val.vNum 2)]) ("info") ("m") (some [(("c"), Val.vNum 3)])
          JSVal.jsUndefined ("t")).map (fun e => e.context) =
        some (some (spread (spread [(("password"), Val.vStr ("x"))] [(("b"), Val.vNum 2)])
          [(("c"), Val.vNum 3)]))) := by decide

/-- C4 as amended: the entry emitted by a child's log call carries, at every
key, the value of the precedence chain call-site > child layer > parent
global context, with the configured field redaction then applied to the
merged result (a redacted key that is present carries the sentinel instead of
its chain value); and the same holds one level deeper for a child's child,
whose own layer sits between the call-site context and the first child's
layer. -/
theorem c4_context_precedence (st : LoggerState) (C C2 L : Ctx) (lv msg now k : String)
    (hs : shouldLog st.config lv = true) :
    (∃ e, dLogAt (childOf st C) lv msg (some L) JSVal.jsUndefined now = some e ∧
      ctxLookup (e.context.getD []) k =
        redactedView (effRedactFields st.config) k (chain3 st.globalContext C L k)) ∧
    (∃ e, dLogAt (dChild (childOf st C) C2) lv msg (some L) JSVal.jsUndefined now = some e ∧
      ctxLookup (e.context.getD []) k =
        redactedView (effRedactFields st.config) k
          (orO (ctxLookup L k) (orO (ctxLookup C2 k)
            (orO (ctxLookup C k) (ctxLookup st.globalContext k))))) := by
  constructor
  · refine ⟨_, dLogAt_eq st C lv msg (some L) JSVal.jsUndefined now hs, ?_⟩
    rw [createEntry_ctx_lookup]
    show redactedView _ k (orO (ctxLookup (spread C L) k) _) = _
    rw [ctxLookup_spread, chain3, orO_assoc]
  · refine ⟨_, dLogAt_eq st (spread C C2) lv msg (some L) JSVal.jsUndefined now hs, ?_⟩
    rw [createEntry_ctx_lookup]
    show redactedView _ k (orO (ctxLookup (spread (spread C C2) L) k) _) = _
    rw [ctxLookup_spread, ctxLookup_spread, orO_assoc, orO_assoc, orO_assoc]

/-- Witness for C4 at the specification's example layers
`G = {a: 1}`, `C = {b: 2}`, `C2 = {}`, `L = {c: 3}`. -/
theorem c4_context_precedence_witness :
    (∃ e, dLogAt (childOf ⟨defaultConfig, [(("a"), Val.vNum 1)]⟩ [(("b"), Val.vNum 2)])
        ("info") ("m") (some [(("c"), Val.vNum 3)]) JSVal.jsUndefined ("t") = some e ∧
      ctxLookup (e.context.getD []) ("b") =
        redactedView (effRedactFields defaultConfig) ("b")
          (chain3 [(("a"), Val.vNum 1)] [(("b"), Val.vNum 2)] [(("c"), Val.vNum 3)] ("b"))) ∧
    (∃ e, dLogAt (dChild (childOf ⟨defaultConfig, [(("a"), Val.vNum 1)]⟩
          [(("b"), Val.vNum 2)]) []) ("info") ("m") (some [(("c"), Val.vNum 3)])
        JSVal.jsUndefined ("t") = some e ∧
      ctxLookup (e.context.getD []) ("b") =
        redactedView (effRedactFields defaultConfig) ("b")
          (orO (ctxLookup [(("c"), Val.vNum 3)] ("b")) (orO (ctxLookup [] ("b"))
            (orO (ctxLookup [(("b"), Val.vNum 2)] ("b"))
              (ctxLookup [(("a"), Val.vNum 1)] ("b")))))) :=
  c4_context_precedence ⟨defaultConfig, [(("a"), Val.vNum 1)]⟩ [(("b"), Val.vNum 2)] []
    [(("c"), Val.vNum 3)] ("info") ("m") ("t") ("b") (by decide)

/-! ## Claim C5: a child's `setContext` never touches the parent -/

/-- C5: mutating a child's context via its `setContext` leaves the parent
state (config and global context) unchanged, and a subsequent log call made
directly on the parent emits an entry whose context is, at every key, exactly
the redacted view of the parent's own global context — in particular it
contains none of the child-layer keys absent from the parent context. -/
theorem c5_child_set_context_frame (st : LoggerState) (C u : Ctx) (lv msg now : String)
    (hs : shouldLog st.config lv = true) :
    (dSetContext (childOf st C) u).parent = st ∧
    ∃ e, logAt st lv msg none JSVal.jsUndefined now = some e ∧
      ∀ k, ctxLookup (e.context.getD []) k =
        redactedView (effRedactFields st.config) k (ctxLookup st.globalContext k) := by
  refine ⟨rfl, createEntry st.config st.globalContext lv msg none JSVal.jsUndefined now,
    by simp [logAt, hs], ?_⟩
  intro k
  show ctxLookup ((match mergeContext st.config st.globalContext none with
    | some m => if 0 < m.length then some m else none
    | none => none).getD []) k = _
  by_cases hG : st.globalContext = []
  · have hmc : mergeContext st.config st.globalContext none = none := by
      simp [mergeContext, hG]
    rw [hmc]
    show (none : Option Val) = _
    rw [hG]
    show _ = redactedView _ k none
    simp [redactedView, ctxLookup]
  · have hmc : mergeContext st.config st.globalContext none =
        some (redactSensitiveFields (effRedactFields st.config)
          (spread st.globalContext [])) := by
      have : ¬ (st.globalContext.length = 0) := by
        simpa [List.length_eq_zero] using hG
      simp [mergeContext, this]
    rw [hmc, lenGuard_getD, spread_nil, ctxLookup_redact]
    rfl

/-- Witness for C5: parent context `{service: p}`, child layer and update
sharing the key `extra`. -/
theorem c5_child_set_context_frame_witness :
    (dSetContext (childOf ⟨defaultConfig, [(("service"), Val.vStr ("p"))]⟩
        [(("requestId"), Val.vStr ("r"))]) [(("extra"), Val.vStr ("childOnly"))]).parent =
      ⟨defaultConfig, [(("service"), Val.vStr ("p"))]⟩ ∧
    ∃ e, logAt ⟨defaultConfig, [(("service"), Val.vStr ("p"))]⟩ ("info") ("m") none
        JSVal.jsUndefined ("t") = some e ∧
      ∀ k, ctxLookup (e.context.getD []) k =
        redactedView (effRedactFields defaultConfig) k
          (ctxLookup [(("service"), Val.vStr ("p"))] k) :=
  c5_child_set_context_frame ⟨defaultConfig, [(("service"), Val.vStr ("p"))]⟩
    [(("requestId"), Val.vStr ("r"))] [(("extra"), Val.vStr ("childOnly"))]
    ("info") ("m") ("t") (by decide)

/-! ## Claim C6: delegation shares the parent's transport, config and context -/

/-- C6: a child logger is a pure delegate.  Every call through it reaches the
transport exactly when the parent's own level filter passes (the parent's
level governs), the emitted message carries the parent's prefix, and an
update made to the parent's global context by the parent's `setContext` after
the child was created is visible in entries subsequently emitted through the
child (here: a key of the update that is shadowed nowhere and not redacted
surfaces with the updated value). -/
theorem c6_delegation (st : LoggerState) (C L u : Ctx) (lv msg now k : String) (v : Val)
    (p : String)
    (hpre : st.config.prefixOpt = some p) (hp : ¬ p = "")
    (hs : shouldLog st.config lv = true)
    (hu : ctxLookup u k = some v) (hC : ctxLookup C k = none) (hL : ctxLookup L k = none)
    (hk : k ∉ effRedactFields st.config) :
    (∀ lv2 msg2 ctx2 err2 now2,
      (dLogAt (childOf st C) lv2 msg2 ctx2 err2 now2).isSome = shouldLog st.config lv2) ∧
    (∃ e, dLogAt (childOf (setContext st u) C) lv msg (some L) JSVal.jsUndefined now = some e ∧
      e.message = ("[") ++ p ++ ("] ") ++ msg ∧
      ctxLookup (e.context.getD []) k = some v) := by
  constructor
  · intro lv2 msg2 ctx2 err2 now2
    exact logAt_isSome st lv2 msg2 _ err2 now2
  · refine ⟨_, dLogAt_eq (setContext st u) C lv msg (some L) JSVal.jsUndefined now hs, ?_, ?_⟩
    · show (match st.config.prefixOpt with
        | some q => if q = ("") then msg else ("[") ++ q ++ ("] ") ++ msg
        | none => msg) = _
      rw [hpre]
      show (if p = ("") then msg else ("[") ++ p ++ ("] ") ++ msg) = _
      rw [if_neg hp]
    · rw [createEntry_ctx_lookup]
      show redactedView _ k (orO (ctxLookup (spread C L) k) (ctxLookup (spread st.globalContext u) k)) = _
      rw [ctxLookup_spread, ctxLookup_spread, hC, hL, hu]
      simp [orO, redactedView, setContext, hk]

/-- Witness for C6: parent with prefix `app`, update `{env: prod}` made after
child creation, surfacing through the child's next entry. -/
theorem c6_delegation_witness :
    (∀ lv2 msg2 ctx2 err2 now2,
      (dLogAt (childOf ⟨{ defaultConfig with prefixOpt := some ("app") }, []⟩
        [(("requestId"), Val.vStr ("r"))]) lv2 msg2 ctx2 err2 now2).isSome =
        shouldLog { defaultConfig with prefixOpt := some ("app") } lv2) ∧
    (∃ e, dLogAt (childOf (setContext ⟨{ defaultConfig with prefixOpt := some ("app") }, []⟩
        [(("env"), Val.vStr ("prod"))]) [(("requestId"), Val.vStr ("r"))]) ("info") ("m")
        (some [(("c"), Val.vNum 3)]) JSVal.jsUndefined ("t") = some e ∧
      e.message = ("[") ++ ("app") ++ ("] ") ++ ("m") ∧
      ctxLookup (e.context.getD []) ("env") = some (Val.vStr ("prod"))) :=
  c6_delegation ⟨{ defaultConfig with prefixOpt := some ("app") }, []⟩
    [(("requestId"), Val.vStr ("r"))] [(("c"), Val.vNum 3)] [(("env"), Val.vStr ("prod"))]
    ("info") ("m") ("t") ("env") (Val.vStr ("prod")) ("app")
    rfl (by decide) (by decide) rfl rfl rfl (by decide)

/-! ## Scanner infrastructure lemmas for the sanitizer -/

theorem scanAux_nil (tf : List Char → Option Nat) (repl : List Char) (fuel : Nat) :
    scanAux tf repl fuel [] = [] := by
  cases fuel <;> rfl

theorem scanAux_id (tf : List Char → Option Nat) (repl : List Char) :
    ∀ (l : List Char), (∀ t ∈ l.tails, tf t = none) →
      scanAux tf repl l.length l = l := by
  intro l
  induction l with
  | nil => intro _; rfl
  | cons c cs ih =>
    intro h
    have h0 : tf (c :: cs) = none := h _ (by simp [List.mem_tails])
    show scanAux tf repl (cs.length + 1) (c :: cs) = c :: cs
    simp only [scanAux, h0]
    rw [ih fun t ht => h t (by
      rw [List.mem_tails] at ht ⊢
      exact ht.trans (List.suffix_cons c cs))]

/-- Global replacement is the identity when the pattern matches at no
position. -/
theorem runReplace_id (tf : List Char → Option Nat) (repl : List Char) (l : List Char)
    (h : ∀ t ∈ l.tails, tf t = none) : runReplace tf repl l = l :=
  scanAux_id tf repl l h

/-- Global replacement on a string the pattern matches whole. -/
theorem runReplace_fire (tf : List Char → Option Nat) (repl : List Char)
    (c : Char) (cs : List Char) (hm : tf (c :: cs) = some (c :: cs).length) :
    runReplace tf repl (c :: cs) = repl := by
  show scanAux tf repl (cs.length + 1) (c :: cs) = repl
  simp only [scanAux, hm, List.length_cons]
  have hmax : max (cs.length + 1) 1 = cs.length + 1 := by omega
  rw [hmax]
  have hdrop : (c :: cs).drop (cs.length + 1) = [] := by
    have := List.drop_length (l := c :: cs)
    simpa using this
  rw [hdrop, scanAux_nil, List.append_nil]

/-- A prefix at whose positions the pattern never matches is passed through
unchanged by the global replacement. -/
theorem runReplace_walk (tf : List Char → Option Nat) (repl : List Char) :
    ∀ (p l : List Char), (∀ i, i < p.length → tf ((p ++ l).drop i) = none) →
      runReplace tf repl (p ++ l) = p ++ runReplace tf repl l := by
  intro p
  induction p with
  | nil => intro l _; rfl
  | cons c p' ih =>
    intro l h
    have h0 : tf (c :: (p' ++ l)) = none := by
      have := h 0 (by simp)
      simpa using this
    show scanAux tf repl ((p' ++ l).length + 1) (c :: (p' ++ l)) = c :: (p' ++ runReplace tf repl l)
    simp only [scanAux, h0]
    rw [show ∀ x : List Char, c :: x = c :: x from fun _ => rfl]
    exact congrArg (c :: ·) (ih l fun i hi => by
      have := h (i + 1) (by simpa using Nat.succ_lt_succ hi)
      simpa using this)

theorem matchCI_eq_drop : ∀ (p l r : List Char), matchCI p l = some r → r = l.drop p.length := by
  intro p
  induction p with
  | nil =>
    intro l r h
    simp [matchCI] at h
    simp [h]
  | cons x ps ih =>
    intro l r h
    cases l with
    | nil => simp [matchCI] at h
    | cons c cs =>
      by_cases hc : lowerEq c x = true
      · simp only [matchCI, hc, if_true] at h
        simpa using ih cs r h
      · simp [matchCI, hc] at h

theorem lowerEq_refl (c : Char) : lowerEq c c = true := by
  simp [lowerEq]

theorem matchCI_refl_append : ∀ (k x : List Char), matchCI k (k ++ x) = some x := by
  intro k
  induction k with
  | nil => intro x; rfl
  | cons c cs ih => intro x; simp [matchCI, lowerEq_refl, ih]

theorem head?_drop_eq : ∀ (l : List Char) (n : Nat), (l.drop n).head? = l.get? n := by
  intro l
  induction l with
  | nil => intro n; cases n <;> rfl
  | cons c cs ih =>
    intro n
    cases n with
    | zero => rfl
    | succ m => simpa using ih m

theorem get?_drop_add : ∀ (l : List Char) (i j : Nat),
    (l.drop i).get? j = l.get? (i + j) := by
  intro l
  induction l with
  | nil => intro i j; cases i <;> rfl
  | cons c cs ih =>
    intro i j
    cases i with
    | zero => simp
    | succ m =>
      show (cs.drop m).get? j = (c :: cs).get? (m + 1 + j)
      rw [ih m j]
      have : m + 1 + j = (m + j) + 1 := by omega
      rw [this]
      rfl

theorem get?_append_add : ∀ (p t : List Char) (n : Nat),
    (p ++ t).get? (p.length + n) = t.get? n := by
  intro p
  induction p with
  | nil => intro t n; simp
  | cons c p' ih =>
    intro t n
    show (c :: (p' ++ t)).get? (p'.length + 1 + n) = t.get? n
    have : p'.length + 1 + n = (p'.length + n) + 1 := by omega
    rw [this]
    simpa using ih t n

theorem memOfGet? : ∀ (l : List Char) (n : Nat) (c : Char),
    l.get? n = some c → c ∈ l := by
  intro l
  induction l with
  | nil => intro n c h; cases n <;> simp [List.get?] at h
  | cons x xs ih =>
    intro n c h
    cases n with
    | zero =>
      simp [List.get?] at h
      simp [h]
    | succ m =>
      exact List.mem_cons_of_mem x (ih m c h)

theorem drop_append_le : ∀ (K x : List Char) (n : Nat), n ≤ K.length →
    (K ++ x).drop n = K.drop n ++ x := by
  intro K
  induction K with
  | nil =>
    intro x n hn
    have : n = 0 := Nat.le_zero.mp hn
    simp [this]
  | cons c K' ih =>
    intro x n hn
    cases n with
    | zero => rfl
    | succ m => simpa using ih x m (Nat.le_of_succ_le_succ hn)

theorem takeWhile_all_true (p : Char → Bool) :
    ∀ (l : List Char), (∀ c ∈ l, p c = true) → l.takeWhile p = l := by
  intro l
  induction l with
  | nil => intro _; rfl
  | cons c cs ih =>
    intro h
    have hc : p c = true := h c (by simp)
    simp [List.takeWhile_cons, hc, ih fun d hd => h d (List.mem_cons_of_mem c hd)]

theorem takeWhile_nil_all (p : Char → Bool) (l : List Char)
    (h : ∀ c ∈ l, p c = false) : l.takeWhile p = [] := by
  cases l with
  | nil => rfl
  | cons c cs =>
    have hc : p c = false := h c (by simp)
    simp [List.takeWhile_cons, hc]

theorem takeWhile_append_all (p : Char → Bool) (v m : List Char)
    (hv : ∀ c ∈ v, p c = true) : (v ++ m).takeWhile p = v ++ m.takeWhile p := by
  induction v with
  | nil => rfl
  | cons c cs ih =>
    have hc : p c = true := hv c (by simp)
    simp [List.takeWhile_cons, hc]
    exact ih fun d hd => hv d (List.mem_cons_of_mem c hd)

/-! ## Rule-level lemmas for the sanitizer -/

theorem applyRule_id_of_tails (r : SanRule) (l : List Char)
    (h : ∀ t ∈ l.tails, r.tryV t = none) : applyRule r l = l := by
  show runReplace (fun t => (r.tryV t).map Prod.fst) r.repl l = l
  exact runReplace_id _ _ l fun t ht => by rw [h t ht]; rfl

/-- A successful `key[=:]value` match puts a delimiter character right after
the matched key. -/
theorem tryKVv_some_delim (spec : KVSpec) (t : List Char) (x : Nat × List Char)
    (h : tryKVv spec t = some x) :
    ∃ kn, spec.keyMatch t = some kn ∧ ∃ e, t.get? kn = some e ∧ isDelim e = true := by
  cases hk : spec.keyMatch t with
  | none => simp [tryKVv, hk] at h
  | some kn =>
    refine ⟨kn, rfl, ?_⟩
    cases hd : t.drop kn with
    | nil => simp [tryKVv, hk, hd] at h
    | cons e rest =>
      have hget : t.get? kn = some e := by
        rw [← head?_drop_eq, hd]; rfl
      cases hb : isDelim e with
      | true => exact ⟨e, hget, hb⟩
      | false => simp [tryKVv, hk, hd, hb] at h

theorem keyMatchPlain_len (k t : List Char) (kn : Nat)
    (h : keyMatchPlain k t = some kn) : kn = k.length := by
  cases hm : matchCI k t with
  | none => simp [keyMatchPlain, hm] at h
  | some r =>
    simp [keyMatchPlain, hm] at h
    omega

theorem keyMatchOptSep_len (k1 k2 t : List Char) (kn : Nat)
    (h : keyMatchOptSep k1 k2 t = some kn) :
    kn = k1.length + 1 + k2.length ∨ kn = k1.length + k2.length := by
  cases hm : matchCI k1 t with
  | none => simp [keyMatchOptSep, hm] at h
  | some rest =>
    simp only [keyMatchOptSep, hm] at h
    cases rest with
    | nil =>
      cases hm2 : matchCI k2 [] with
      | none => simp [hm2] at h
      | some r => simp [hm2] at h; omega
    | cons c rest2 =>
      by_cases hc : (c = '_' || c = '-') = true
      · cases hm2 : matchCI k2 rest2 with
        | none =>
          cases hm3 : matchCI k2 (c :: rest2) with
          | none => simp [hc, hm2, hm3] at h
          | some r => simp [hc, hm2, hm3] at h; omega
        | some r => simp [hc, hm2] at h; omega
      · cases hm3 : matchCI k2 (c :: rest2) with
        | none => simp [hc, hm3] at h
        | some r => simp [hc, hm3] at h; omega

/-- On an input of shape `K ++ d :: rest` where neither `K` nor `rest`
contains a delimiter character, a `key[=:]` rule can match only with its key
ending exactly at `d`; if it also fails at those positions, it matches
nowhere. -/
theorem kv_tails_none (spec : KVSpec) (lens : List Nat)
    (hlen : ∀ t kn, spec.keyMatch t = some kn → kn ∈ lens)
    (K rest : List Char) (d : Char)
    (hK : ∀ c ∈ K, isDelim c = false)
    (hrest : ∀ c ∈ rest, isDelim c = false)
    (hcand : ∀ kn ∈ lens, kn ≤ K.length →
      tryKVv spec (K.drop (K.length - kn) ++ d :: rest) = none) :
    ∀ t ∈ (K ++ d :: rest).tails, tryKVv spec t = none := by
  intro t ht
  cases hx : tryKVv spec t with
  | none => rfl
  | some x =>
    exfalso
    obtain ⟨kn, hkm, e, hget, he⟩ := tryKVv_some_delim spec t x hx
    have hkn : kn ∈ lens := hlen t kn hkm
    rw [List.mem_tails] at ht
    obtain ⟨p, hp⟩ := ht
    have hchar : (K ++ d :: rest).get? (p.length + kn) = some e := by
      rw [← hp, get?_append_add]; exact hget
    have hpos : p.length + kn = K.length := by
      rcases Nat.lt_trichotomy (p.length + kn) K.length with hlt | heq | hgt
      · have hKg : K.get? (p.length + kn) = some e := by
          rw [← List.get?_append hlt]; exact hchar
        have := hK e (memOfGet? _ _ _ hKg)
        rw [he] at this
        exact Bool.noConfusion this
      · exact heq
      · obtain ⟨m, hm⟩ := Nat.exists_eq_add_of_lt hgt
        rw [show K.length + m + 1 = K.length + (m + 1) by omega] at hm
        rw [hm, get?_append_add] at hchar
        have hres : rest.get? m = some e := hchar
        have hre : e ∈ rest := memOfGet? _ _ _ hres
        have := hrest e hre
        rw [he] at this
        exact Bool.noConfusion this
    have ht' : t = (K ++ d :: rest).drop p.length := by
      rw [← hp, List.drop_left]
    rw [ht', show p.length = K.length - kn by omega,
      drop_append_le _ _ _ (by omega)] at hx
    rw [hcand kn hkn (by omega)] at hx
    exact Option.noConfusion hx

theorem tryKVv_none_of_keyNone (spec : KVSpec) (t : List Char)
    (h : spec.keyMatch t = none) : tryKVv spec t = none := by
  simp [tryKVv, h]

theorem keyMatchPlain_none (k t : List Char) (h : matchCI k t = none) :
    keyMatchPlain k t = none := by
  simp [keyMatchPlain, h]

theorem keyMatchOptSep_none (k1 k2 t : List Char) (h : matchCI k1 t = none) :
    keyMatchOptSep k1 k2 t = none := by
  simp [keyMatchOptSep, h]

theorem matchCI_cons_false (p c : Char) (ps cs : List Char) (h : lowerEq c p = false) :
    matchCI (p :: ps) (c :: cs) = none := by
  simp [matchCI, h]

/-! ## Bearer-rule idleness and firing conditions -/

theorem tryBearerV_none_nospace (t : List Char) (h : ∀ c ∈ t, jsSpace c = false) :
    tryBearerV t = none := by
  cases hm : matchCI kwBearer t with
  | none => simp [tryBearerV, hm]
  | some rest =>
    have hrest : rest = t.drop kwBearer.length := matchCI_eq_drop _ _ _ hm
    have hsub : ∀ c ∈ rest, jsSpace c = false := by
      intro c hc
      apply h
      rw [hrest] at hc
      exact List.drop_subset _ _ hc
    simp [tryBearerV, hm, takeWhile_nil_all _ _ hsub]

theorem tryBearerV_none_noB (t : List Char) (h : ∀ c ∈ t, lowerEq c 'b' = false) :
    tryBearerV t = none := by
  cases t with
  | nil => rfl
  | cons c cs =>
    have hc : lowerEq c 'b' = false := h c (by simp)
    have hm : matchCI kwBearer (c :: cs) = none := by
      have e : kwBearer = 'b' :: ("earer").data := rfl
      rw [e]
      exact matchCI_cons_false _ _ _ _ hc
    simp [tryBearerV, hm]

theorem bearer_id_nospace (l : List Char) (h : ∀ c ∈ l, jsSpace c = false) :
    applyRule bearerRule l = l := by
  apply applyRule_id_of_tails
  intro t ht
  show tryBearerV t = none
  refine tryBearerV_none_nospace t fun c hc => h c ?_
  rw [List.mem_tails] at ht
  exact ht.subset hc

theorem bearer_id_noB (l : List Char) (h : ∀ c ∈ l, lowerEq c 'b' = false) :
    applyRule bearerRule l = l := by
  apply applyRule_id_of_tails
  intro t ht
  show tryBearerV t = none
  refine tryBearerV_none_noB t fun c hc => h c ?_
  rw [List.mem_tails] at ht
  exact ht.subset hc

theorem bearerNext_false_nospace (p : List Char) (h : ∀ c ∈ p, jsSpace c = false) :
    bearerNext p = false := by
  cases hm : matchCI kwBearer p with
  | none => simp [bearerNext, hm]
  | some rest =>
    have hrest : rest = p.drop kwBearer.length := matchCI_eq_drop _ _ _ hm
    cases hr : rest with
    | nil => simp [bearerNext, hm, hr]
    | cons c cs =>
      have hcp : c ∈ p := by
        have hcr : c ∈ rest := by rw [hr]; simp
        rw [hrest] at hcr
        exact List.drop_subset _ _ hcr
      simp [bearerNext, hm, hr, h c hcp]

theorem bearerNext_false_headQuote (v : List Char) : bearerNext ('"' :: v) = false := by
  have hm : matchCI kwBearer ('"' :: v) = none := by
    have e : kwBearer = 'b' :: ("earer").data := rfl
    rw [e]
    exact matchCI_cons_false _ _ _ _ (by decide)
  simp [bearerNext, hm]

/-! ## Value-branch firing lemmas -/

theorem safeUnq_parts (c : Char) (h : safeUnqChar c = true) :
    jsSpace c = false ∧ ¬ c = ',' ∧ ¬ c = ';' := by
  simp only [safeUnqChar, Bool.not_eq_true', Bool.or_eq_false_iff] at h
  obtain ⟨⟨h1, h2⟩, h3⟩ := h
  exact ⟨h1, by simpa using h2, by simpa using h3⟩

theorem safeQ_parts (c : Char) (h : safeQChar c = true) :
    isQuote c = false ∧ isDelim c = false := by
  simp only [safeQChar, Bool.not_eq_true', Bool.or_eq_false_iff] at h
  obtain ⟨⟨h1, h2⟩, h3⟩ := h
  exact ⟨h1, by simp [isDelim, h2, h3]⟩

/-- The unquoted branch consumes a whole value that does not start with a
quote and contains none of the `[^\s,;]+` terminators. -/
theorem tryValueV_unquoted (c : Char) (cs : List Char) (hq : isQuote c = false)
    (hv : ∀ x ∈ c :: cs, safeUnqChar x = true) :
    tryValueV (c :: cs) = some ((c :: cs).length, c :: cs) := by
  have hspan : unquotedSpan (c :: cs) = c :: cs := by
    apply takeWhile_all_true
    intro x hx
    exact hv x hx
  simp [tryValueV, hq, hspan]

theorem tryValueV_quoted (v : List Char) (hv : ∀ c ∈ v, isQuote c = false) :
    tryValueV ('"' :: (v ++ ['"'])) = some (v.length + 2, v) := by
  have hinner : (v ++ ['"']).takeWhile (fun d => ! isQuote d) = v := by
    rw [takeWhile_append_all _ _ _ (fun c hc => by simp [hv c hc])]
    simp +decide [List.takeWhile_cons]
  have hdrop : (v ++ ['"']).drop v.length = ['"'] := by
    have h := List.drop_left v ['"']
    exact h
  have hq : isQuote '"' = true := by decide
  simp [tryValueV, hq, hinner, hdrop]

/-- Firing of a `key[=:]value` rule at the head of the input: the key matches
at its own length, a delimiter follows, no leading whitespace, lookahead
clear, and the value branch matches the whole tail. -/
theorem tryKVv_fire (spec : KVSpec) (K tail v : List Char) (d : Char) (kn vn : Nat)
    (hkm : spec.keyMatch (K ++ d :: tail) = some K.length) (hkn : kn = K.length)
    (hd : isDelim d = true)
    (hws : tail.takeWhile jsSpace = [])
    (hla : spec.lookBearer = false ∨ bearerNext tail = false)
    (hval : tryValueV tail = some (vn, v)) :
    tryKVv spec (K ++ d :: tail) = some (kn + 1 + vn, v) := by
  have hdrop : (K ++ d :: tail).drop K.length = d :: tail := List.drop_left K (d :: tail)
  subst hkn
  have hlaf : (spec.lookBearer && bearerNext tail) = false := by
    rcases hla with h | h <;> simp [h]
  simp [tryKVv, hkm, hdrop, hd, hws, hlaf, hval]

/-! ## Per-rule wrappers instantiated by the family proofs -/

theorem applyRule_kv_id (spec : KVSpec) (repl : List Char) (lens : List Nat)
    (hlen : ∀ t kn, spec.keyMatch t = some kn → kn ∈ lens)
    (K rest : List Char) (d : Char)
    (hK : ∀ c ∈ K, isDelim c = false) (hrest : ∀ c ∈ rest, isDelim c = false)
    (hcand : ∀ kn ∈ lens, kn ≤ K.length →
      tryKVv spec (K.drop (K.length - kn) ++ d :: rest) = none) :
    applyRule ⟨tryKVv spec, repl⟩ (K ++ d :: rest) = K ++ d :: rest := by
  apply applyRule_id_of_tails
  exact kv_tails_none spec lens hlen K rest d hK hrest hcand

theorem applyRule_kv_fire (spec : KVSpec) (repl : List Char) (K tail v : List Char)
    (d : Char) (vn : Nat) (hK : K ≠ [])
    (hkm : spec.keyMatch (K ++ d :: tail) = some K.length)
    (hd : isDelim d = true) (hws : tail.takeWhile jsSpace = [])
    (hla : spec.lookBearer = false ∨ bearerNext tail = false)
    (hval : tryValueV tail = some (vn, v)) (hlen : vn = tail.length) :
    applyRule ⟨tryKVv spec, repl⟩ (K ++ d :: tail) = repl := by
  have hfire := tryKVv_fire spec K tail v d K.length vn hkm rfl hd hws hla hval
  cases hK' : K with
  | nil => exact absurd hK' hK
  | cons c K0 =>
    subst hK'
    show runReplace (fun t => (tryKVv spec t).map Prod.fst) repl (c :: (K0 ++ d :: tail)) = repl
    apply runReplace_fire
    rw [show c :: (K0 ++ d :: tail) = (c :: K0) ++ d :: tail from rfl, hfire]
    simp [List.length_append, hlen]
    omega

theorem applyRule_walk (r : SanRule) (p l : List Char)
    (h : ∀ i, i < p.length → r.tryV ((p ++ l).drop i) = none) :
    applyRule r (p ++ l) = p ++ applyRule r l := by
  show runReplace (fun t => (r.tryV t).map Prod.fst) r.repl (p ++ l) =
    p ++ runReplace (fun t => (r.tryV t).map Prod.fst) r.repl l
  apply runReplace_walk
  intro i hi
  rw [h i hi]; rfl

/-! ## Matched key spans contain no delimiter characters -/

theorem get?_some_of_lt : ∀ (l : List Char) (j : Nat), j < l.length →
    ∃ c, l.get? j = some c := by
  intro l
  induction l with
  | nil => intro j hj; simp at hj
  | cons c cs ih =>
    intro j hj
    cases j with
    | zero => exact ⟨c, rfl⟩
    | succ m =>
      refine ih m ?_
      simp at hj
      omega

/-- Every position of a case-insensitive match pairs an input character with
the pattern character at the same index. -/
theorem matchCI_span : ∀ (p l r : List Char), matchCI p l = some r →
    ∀ j pj cj, p.get? j = some pj → l.get? j = some cj → lowerEq cj pj = true := by
  intro p
  induction p with
  | nil =>
    intro l r h j pj cj hp hc
    cases j <;> simp [List.get?] at hp
  | cons x ps ih =>
    intro l r h j pj cj hp hc
    cases l with
    | nil => simp [matchCI] at h
    | cons c cs =>
      by_cases hcx : lowerEq c x = true
      · simp only [matchCI, hcx, if_true] at h
        cases j with
        | zero =>
          have hpj : pj = x := by simpa using hp.symm
          have hcj : cj = c := by simpa using hc.symm
          subst hpj; subst hcj
          exact hcx
        | succ m => exact ih cs r h m pj cj hp hc
      · simp [matchCI, hcx] at h

/-- A character inside a matched span of a delimiter-free pattern is not a
delimiter. -/
theorem span_delim_contra (k l r : List Char) (hm : matchCI k l = some r)
    (hk : ∀ p ∈ k, lowerEq '=' p = false ∧ lowerEq ':' p = false)
    (m : Nat) (hml : m < k.length) (cj : Char) (hcj : l.get? m = some cj) :
    isDelim cj = false := by
  obtain ⟨pj, hpj⟩ := get?_some_of_lt k m hml
  have hle := matchCI_span k l r hm m pj cj hpj hcj
  have hmem := memOfGet? k m pj hpj
  cases hd : isDelim cj with
  | false => rfl
  | true =>
    exfalso
    rcases (by simpa [isDelim] using hd : cj = '=' ∨ cj = ':') with rfl | rfl
    · rw [(hk pj hmem).1] at hle; exact Bool.noConfusion hle
    · rw [(hk pj hmem).2] at hle; exact Bool.noConfusion hle

/-- A span matched by a plain key contains no delimiter characters. -/
theorem plain_span (k : List Char)
    (hk : ∀ p ∈ k, lowerEq '=' p = false ∧ lowerEq ':' p = false) :
    ∀ t kn, keyMatchPlain k t = some kn → ∀ j, j < kn → ∀ cj,
      t.get? j = some cj → isDelim cj = false := by
  intro t kn h j hj cj hcj
  cases hm : matchCI k t with
  | none => simp [keyMatchPlain, hm] at h
  | some r =>
    have hkn : kn = k.length := by simp [keyMatchPlain, hm] at h; omega
    exact span_delim_contra k t r hm hk j (by omega) cj hcj

/-- A span matched by a `k1[_-]?k2` key contains no delimiter characters. -/
theorem optsep_span (k1 k2 : List Char)
    (h1 : ∀ p ∈ k1, lowerEq '=' p = false ∧ lowerEq ':' p = false)
    (h2 : ∀ p ∈ k2, lowerEq '=' p = false ∧ lowerEq ':' p = false) :
    ∀ t kn, keyMatchOptSep k1 k2 t = some kn → ∀ j, j < kn → ∀ cj,
      t.get? j = some cj → isDelim cj = false := by
  intro t kn h j hj cj hcj
  cases hm1 : matchCI k1 t with
  | none => simp [keyMatchOptSep, hm1] at h
  | some rest =>
    have hrest : rest = t.drop k1.length := matchCI_eq_drop _ _ _ hm1
    by_cases hjk : j < k1.length
    · exact span_delim_contra k1 t rest hm1 h1 j hjk cj hcj
    · push_neg at hjk
      cases hr : rest with
      | nil =>
        cases k2 with
        | nil =>
          simp [keyMatchOptSep, hm1, hr, matchCI] at h
          exact absurd hj (by omega)
        | cons y ys => simp [keyMatchOptSep, hm1, hr, matchCI] at h
      | cons c0 rest2 =>
        have hget0 : t.get? k1.length = some c0 := by
          rw [← head?_drop_eq, ← hrest, hr]; rfl
        by_cases hsep : (c0 = '_' || c0 = '-') = true
        · cases hm2 : matchCI k2 rest2 with
          | some r2 =>
            have hkn : kn = k1.length + 1 + k2.length := by
              simp [keyMatchOptSep, hm1, hr, hsep, hm2] at h
              omega
            rcases Nat.eq_or_lt_of_le hjk with heq | hlt
            · rw [← heq] at hcj
              rw [hget0] at hcj
              have hc0 : c0 = cj := by injection hcj
              subst hc0
              rcases (by simpa using hsep : c0 = '_' ∨ c0 = '-') with rfl | rfl <;> decide
            · have hm' : j - (k1.length + 1) < k2.length := by omega
              have hr2 : rest2.get? (j - (k1.length + 1)) = some cj := by
                have e1 : t.drop k1.length = c0 :: rest2 := by rw [← hrest, hr]
                have e2 : (t.drop k1.length).get? (j - k1.length) = some cj := by
                  rw [get?_drop_add, show k1.length + (j - k1.length) = j by omega]
                  exact hcj
                rw [e1, show j - k1.length = (j - (k1.length + 1)) + 1 by omega] at e2
                exact e2
              exact span_delim_contra k2 rest2 r2 hm2 h2 _ hm' cj hr2
          | none =>
            cases hm3 : matchCI k2 (c0 :: rest2) with
            | none => simp [keyMatchOptSep, hm1, hr, hsep, hm2, hm3] at h
            | some r3 =>
              have hkn : kn = k1.length + k2.length := by
                simp [keyMatchOptSep, hm1, hr, hsep, hm2, hm3] at h
                omega
              have hm' : j - k1.length < k2.length := by omega
              have hrq : (c0 :: rest2).get? (j - k1.length) = some cj := by
                have e1 : t.drop k1.length = c0 :: rest2 := by rw [← hrest, hr]
                rw [← e1, get?_drop_add, show k1.length + (j - k1.length) = j by omega]
                exact hcj
              exact span_delim_contra k2 (c0 :: rest2) r3 hm3 h2 _ hm' cj hrq
        · cases hm3 : matchCI k2 (c0 :: rest2) with
          | none => simp [keyMatchOptSep, hm1, hr, hsep, hm3] at h
          | some r3 =>
            have hkn : kn = k1.length + k2.length := by
              simp [keyMatchOptSep, hm1, hr, hsep, hm3] at h
              omega
            have hm' : j - k1.length < k2.length := by omega
            have hrq : (c0 :: rest2).get? (j - k1.length) = some cj := by
              have e1 : t.drop k1.length = c0 :: rest2 := by rw [← hrest, hr]
              rw [← e1, get?_drop_add, show k1.length + (j - k1.length) = j by omega]
              exact hcj
            exact span_delim_contra k2 (c0 :: rest2) r3 hm3 h2 _ hm' cj hrq

/-- On `K ++ d :: rest` with `K` delimiter-free, a `key[=:]` rule matches at
no position inside `K ++ [d]`, whatever `rest` is: the key would have to end
at `d` (excluded by the candidate checks), end inside `K` (no delimiter
there), or span across `d` (a matched key span has no delimiter). -/
theorem kv_prefix_none (spec : KVSpec) (lens : List Nat)
    (hlen : ∀ t kn, spec.keyMatch t = some kn → kn ∈ lens)
    (hspan : ∀ t kn, spec.keyMatch t = some kn → ∀ j, j < kn → ∀ cj,
      t.get? j = some cj → isDelim cj = false)
    (K rest : List Char) (d : Char)
    (hK : ∀ c ∈ K, isDelim c = false) (hd : isDelim d = true)
    (hcand : ∀ kn ∈ lens, kn ≤ K.length →
      tryKVv spec (K.drop (K.length - kn) ++ d :: rest) = none) :
    ∀ i, i ≤ K.length → tryKVv spec ((K ++ d :: rest).drop i) = none := by
  intro i hi
  cases hx : tryKVv spec ((K ++ d :: rest).drop i) with
  | none => rfl
  | some x =>
    exfalso
    obtain ⟨kn, hkm, e, hget, he⟩ := tryKVv_some_delim spec _ x hx
    have hkn : kn ∈ lens := hlen _ kn hkm
    have hchar : (K ++ d :: rest).get? (i + kn) = some e := by
      rw [← get?_drop_add]; exact hget
    rcases Nat.lt_trichotomy (i + kn) K.length with hlt | heq | hgt
    · have hKg : K.get? (i + kn) = some e := by
        rw [← List.get?_append hlt]; exact hchar
      have := hK e (memOfGet? _ _ _ hKg)
      rw [he] at this
      exact Bool.noConfusion this
    · have hle2 : kn ≤ K.length := by omega
      rw [show i = K.length - kn by omega, drop_append_le _ _ _ (by omega)] at hx
      rw [hcand kn hkn hle2] at hx
      exact Option.noConfusion hx
    · have hj : K.length - i < kn := by omega
      have hdg : ((K ++ d :: rest).drop i).get? (K.length - i) = some d := by
        rw [get?_drop_add, show i + (K.length - i) = K.length by omega]
        have := get?_append_add K (d :: rest) 0
        simpa using this
      have hcontra := hspan _ kn hkm (K.length - i) hj d hdg
      rw [hd] at hcontra
      exact Bool.noConfusion hcontra

/-- A `key[=:]` rule pass on `K ++ d :: rest` with `K` delimiter-free walks
the key-and-delimiter prefix unchanged and scans `rest` on its own: any match
starts strictly after `d`. -/
theorem applyRule_kv_pref (spec : KVSpec) (repl : List Char) (lens : List Nat)
    (hlen : ∀ t kn, spec.keyMatch t = some kn → kn ∈ lens)
    (hspan : ∀ t kn, spec.keyMatch t = some kn → ∀ j, j < kn → ∀ cj,
      t.get? j = some cj → isDelim cj = false)
    (K rest : List Char) (d : Char)
    (hK : ∀ c ∈ K, isDelim c = false) (hd : isDelim d = true)
    (hcand : ∀ kn ∈ lens, kn ≤ K.length →
      tryKVv spec (K.drop (K.length - kn) ++ d :: rest) = none) :
    applyRule ⟨tryKVv spec, repl⟩ (K ++ d :: rest) =
      K ++ d :: applyRule ⟨tryKVv spec, repl⟩ rest := by
  have hw : ∀ i, i < (K ++ [d]).length →
      (⟨tryKVv spec, repl⟩ : SanRule).tryV (((K ++ [d]) ++ rest).drop i) = none := by
    intro i hi
    have hi2 : i ≤ K.length := by
      have : (K ++ [d]).length = K.length + 1 := by simp
      omega
    show tryKVv spec (((K ++ [d]) ++ rest).drop i) = none
    rw [show (K ++ [d]) ++ rest = K ++ d :: rest by simp]
    exact kv_prefix_none spec lens hlen hspan K rest d hK hd hcand i hi2
  have e : K ++ d :: rest = (K ++ [d]) ++ rest := by simp
  rw [e, applyRule_walk _ _ _ hw]
  simp

/-! ## Value invariants preserved by earlier rule passes -/

/-- Every character of a global-replacement output comes from the input or
from the replacement string. -/
theorem mem_scanAux (tf : List Char → Option Nat) (repl : List Char) :
    ∀ (fuel : Nat) (l : List Char) (c : Char),
      c ∈ scanAux tf repl fuel l → c ∈ l ∨ c ∈ repl := by
  intro fuel
  induction fuel with
  | zero =>
    intro l c hc
    cases l with
    | nil => simp [scanAux] at hc
    | cons c0 cs => exact Or.inl (by simpa [scanAux] using hc)
  | succ f ih =>
    intro l c hc
    cases l with
    | nil => simp [scanAux] at hc
    | cons c0 cs =>
      cases htf : tf (c0 :: cs) with
      | some n =>
        simp only [scanAux, htf] at hc
        rcases List.mem_append.mp hc with h | h
        · exact Or.inr h
        · rcases ih _ c h with h2 | h2
          · exact Or.inl (List.drop_subset _ _ h2)
          · exact Or.inr h2
      | none =>
        simp only [scanAux, htf] at hc
        rcases List.mem_cons.mp hc with h | h
        · exact Or.inl (by simp [h])
        · rcases ih cs c h with h2 | h2
          · exact Or.inl (List.mem_cons_of_mem _ h2)
          · exact Or.inr h2

/-- A global replacement with a non-empty replacement string maps a non-empty
input to a non-empty output. -/
theorem runReplace_ne_nil (tf : List Char → Option Nat) (rh : Char) (rt : List Char)
    (c : Char) (cs : List Char) : runReplace tf (rh :: rt) (c :: cs) ≠ [] := by
  show scanAux tf (rh :: rt) (cs.length + 1) (c :: cs) ≠ []
  cases htf : tf (c :: cs) with
  | some n => simp [scanAux, htf]
  | none => simp [scanAux, htf]

/-- The output head of a global replacement on a non-empty input is the input
head or the replacement head. -/
theorem runReplace_headI (tf : List Char → Option Nat) (rh : Char) (rt : List Char)
    (c : Char) (cs : List Char) :
    (runReplace tf (rh :: rt) (c :: cs)).headI = c ∨
      (runReplace tf (rh :: rt) (c :: cs)).headI = rh := by
  show (scanAux tf (rh :: rt) (cs.length + 1) (c :: cs)).headI = c ∨
    (scanAux tf (rh :: rt) (cs.length + 1) (c :: cs)).headI = rh
  cases htf : tf (c :: cs) with
  | some n => right; simp [scanAux, htf, List.headI]
  | none => left; simp [scanAux, htf, List.headI]

/-- One rule pass keeps an unquoted value non-empty, free of the `[^\s,;]+`
terminators and not starting with a quote: the replacement strings insert
only such characters and start with a letter. -/
theorem pass_pres (r : SanRule) (rh : Char) (rt : List Char) (hr : r.repl = rh :: rt)
    (hrc : ∀ c ∈ r.repl, safeUnqChar c = true) (hrh : isQuote rh = false)
    (c0 : Char) (cs : List Char) (hvc : ∀ c ∈ c0 :: cs, safeUnqChar c = true)
    (hvh : isQuote c0 = false) :
    ∃ c1 cs1, applyRule r (c0 :: cs) = c1 :: cs1 ∧ isQuote c1 = false ∧
      (∀ c ∈ applyRule r (c0 :: cs), safeUnqChar c = true) := by
  have hne : applyRule r (c0 :: cs) ≠ [] := by
    show runReplace (fun t => (r.tryV t).map Prod.fst) r.repl (c0 :: cs) ≠ []
    rw [hr]
    exact runReplace_ne_nil _ rh rt c0 cs
  have hmem : ∀ c ∈ applyRule r (c0 :: cs), safeUnqChar c = true := by
    intro c hc
    rcases mem_scanAux (fun t => (r.tryV t).map Prod.fst) r.repl ((c0 :: cs).length)
        (c0 :: cs) c hc with h | h
    · exact hvc c h
    · exact hrc c h
  cases hres : applyRule r (c0 :: cs) with
  | nil => exact absurd hres hne
  | cons c1 cs1 =>
    refine ⟨c1, cs1, rfl, ?_, hres ▸ hmem⟩
    have e : runReplace (fun t => (r.tryV t).map Prod.fst) (rh :: rt) (c0 :: cs) =
        c1 :: cs1 := by
      rw [← hr]
      exact hres
    have hh := runReplace_headI (fun t => (r.tryV t).map Prod.fst) rh rt c0 cs
    rw [e] at hh
    simp only [List.headI] at hh
    rcases hh with h | h
    · rw [h]; exact hvh
    · rw [h]; exact hrh

/-! ## Bearer idleness from a prefix with no `b` and a Bearer-free tail -/

theorem drop_append_ge : ∀ (A B : List Char) (m : Nat),
    (A ++ B).drop (A.length + m) = B.drop m := by
  intro A
  induction A with
  | nil => intro B m; simp
  | cons c A2 ih =>
    intro B m
    show (c :: (A2 ++ B)).drop (A2.length + 1 + m) = B.drop m
    rw [show A2.length + 1 + m = (A2.length + m) + 1 by omega]
    show (A2 ++ B).drop (A2.length + m) = B.drop m
    exact ih B m

/-- The Bearer pattern fails at a position whose head does not case-fold to
`b`. -/
theorem tryBearerV_head (c : Char) (cs : List Char) (h : lowerEq c 'b' = false) :
    tryBearerV (c :: cs) = none := by
  have hm : matchCI kwBearer (c :: cs) = none := by
    have e : kwBearer = 'b' :: ("earer").data := rfl
    rw [e]
    exact matchCI_cons_false _ _ _ _ h
  simp [tryBearerV, hm]

theorem bearerFree_tails (l : List Char) (h : bearerFree l = true) :
    ∀ t ∈ l.tails, tryBearerV t = none := by
  intro t ht
  simp only [bearerFree, List.all_eq_true] at h
  have h2 := h t ht
  simpa using h2

/-- The Bearer rule is the identity on `A ++ B` when no character of `A`
case-folds to `b` (a match starting inside `A` dies on its first character)
and no tail of `B` starts a Bearer match. -/
theorem bearer_id_split (A B : List Char)
    (hA : ∀ c ∈ A, lowerEq c 'b' = false)
    (hB : ∀ t ∈ B.tails, tryBearerV t = none) :
    applyRule bearerRule (A ++ B) = A ++ B := by
  apply applyRule_id_of_tails
  intro t ht
  show tryBearerV t = none
  rw [List.mem_tails] at ht
  obtain ⟨p, hp⟩ := ht
  have ht2 : t = (A ++ B).drop p.length := by rw [← hp, List.drop_left]
  by_cases hlen : p.length < A.length
  · obtain ⟨a, ha⟩ := get?_some_of_lt A p.length hlen
    have hh : t.head? = some a := by
      rw [ht2, head?_drop_eq, List.get?_append hlen]
      exact ha
    cases t with
    | nil => simp at hh
    | cons c cs =>
      have hca : c = a := by simpa using hh
      subst hca
      exact tryBearerV_head c cs (hA c (memOfGet? _ _ _ ha))
  · push_neg at hlen
    obtain ⟨m, hm⟩ := Nat.exists_eq_add_of_le hlen
    have htB : t = B.drop m := by rw [ht2, hm, drop_append_ge]
    rw [htB]
    exact hB _ (by rw [List.mem_tails]; exact List.drop_suffix m B)

/-- Bearer idleness on a whole `key delim "value"` message. -/
theorem bearer_id_parts (K : List Char) (d q : Char) (B : List Char)
    (hKb : ∀ c ∈ K, lowerEq c 'b' = false)
    (hdb : lowerEq d 'b' = false) (hqb : lowerEq q 'b' = false)
    (hB : ∀ t ∈ B.tails, tryBearerV t = none) :
    applyRule bearerRule (K ++ d :: q :: B) = K ++ d :: q :: B := by
  have e : K ++ d :: q :: B = (K ++ [d, q]) ++ B := by simp
  rw [e]
  refine bearer_id_split (K ++ [d, q]) B ?_ hB
  intro c hc
  rcases List.mem_append.mp hc with h | h
  · exact hKb c h
  · rcases (by simpa using h : c = d ∨ c = q) with rfl | rfl
    · exact hdb
    · exact hqb

theorem keyMatchPlain_self (k x : List Char) : keyMatchPlain k (k ++ x) = some k.length := by
  simp [keyMatchPlain, matchCI_refl_append]

theorem keyMatchApi_self (x : List Char) :
    keyMatchOptSep ('a' :: 'p' :: 'i' :: []) ('k' :: 'e' :: 'y' :: [])
      ('a' :: 'p' :: 'i' :: '_' :: 'k' :: 'e' :: 'y' :: x) = some 7 := by
  unfold keyMatchOptSep
  rw [show ('a' :: 'p' :: 'i' :: '_' :: 'k' :: 'e' :: 'y' :: x) =
    ('a' :: 'p' :: 'i' :: []) ++ ('_' :: (('k' :: 'e' :: 'y' :: []) ++ x)) from rfl]
  rw [matchCI_refl_append]
  simp +decide only []
  rw [matchCI_refl_append]
  simp +decide

theorem plain_hlen (k : List Char) :
    ∀ t kn, keyMatchPlain k t = some kn → kn ∈ [k.length] := by
  intro t kn h
  simp [keyMatchPlain_len k t kn h]

theorem optsep_hlen (k1 k2 : List Char) :
    ∀ t kn, keyMatchOptSep k1 k2 t = some kn →
      kn ∈ [k1.length + 1 + k2.length, k1.length + k2.length] := by
  intro t kn h
  rcases keyMatchOptSep_len k1 k2 t kn h with h | h <;> simp [h]

theorem tryKVv_plain_headfail (look : Bool) (kh : Char) (kt : List Char)
    (c : Char) (cs : List Char) (h : lowerEq c kh = false) :
    tryKVv ⟨keyMatchPlain (kh :: kt), look⟩ (c :: cs) = none := by
  apply tryKVv_none_of_keyNone
  exact keyMatchPlain_none _ _ (matchCI_cons_false _ _ _ _ h)

theorem tryKVv_plain_fail2 (look : Bool) (k0 k1 : Char) (kt : List Char)
    (c0 c1 : Char) (cs : List Char)
    (h0 : lowerEq c0 k0 = true) (h1 : lowerEq c1 k1 = false) :
    tryKVv ⟨keyMatchPlain (k0 :: k1 :: kt), look⟩ (c0 :: c1 :: cs) = none := by
  apply tryKVv_none_of_keyNone
  apply keyMatchPlain_none
  simp [matchCI, h0, h1]

theorem tryKVv_optsep_headfail (look : Bool) (k1h : Char) (k1t k2 : List Char)
    (c : Char) (cs : List Char) (h : lowerEq c k1h = false) :
    tryKVv ⟨keyMatchOptSep (k1h :: k1t) k2, look⟩ (c :: cs) = none := by
  apply tryKVv_none_of_keyNone
  exact keyMatchOptSep_none _ _ _ (matchCI_cons_false _ _ _ _ h)

theorem delim_nospace (c : Char) (h : isDelim c = true) : jsSpace c = false := by
  rcases (by simpa [isDelim] using h : c = '=' ∨ c = ':') with h | h <;> subst h <;> decide

theorem delim_noB (c : Char) (h : isDelim c = true) : lowerEq c 'b' = false := by
  rcases (by simpa [isDelim] using h : c = '=' ∨ c = ':') with h | h <;> subst h <;> decide

theorem mem_shape (K : List Char) (d : Char) (v : List Char) (c : Char)
    (hc : c ∈ K ++ d :: v) : c ∈ K ∨ c = d ∨ c ∈ v := by
  simp [List.mem_append, List.mem_cons] at hc
  tauto

theorem mem_shape_q (K : List Char) (d : Char) (v : List Char) (c : Char)
    (hc : c ∈ K ++ d :: '"' :: (v ++ ['"'])) : c ∈ K ∨ c = d ∨ c = '"' ∨ c ∈ v := by
  simp [List.mem_append, List.mem_cons] at hc
  tauto

theorem sanitizeList_unfold (l : List Char) :
    sanitizeList l =
      applyRule refreshRule (applyRule accessRule (applyRule authRule (applyRule apiKeyRule
        (applyRule passwordRule (applyRule secretRule (applyRule tokenRule
          (applyRule bearerRule l))))))) := by
  simp only [sanitizeList, sanRules, kvRules, List.foldl]

/-! ## Per-family sanitization lemmas -/

/-- Quoted tails contain no delimiter characters. -/
theorem hrest_q (v : List Char) (hv : ∀ c ∈ v, safeQChar c = true) :
    ∀ c ∈ '"' :: (v ++ ['"']), isDelim c = false := by
  intro c hc
  rcases List.mem_cons.mp hc with h | h
  · subst h; decide
  · rcases List.mem_append.mp h with h | h
    · exact (safeQ_parts c (hv c h)).2
    · simp at h; subst h; decide

/-- The token rule fails at any position whose head cannot open `token`. -/
theorem tryV_token_headfail (c : Char) (cs : List Char) (h : lowerEq c 't' = false) :
    tokenRule.tryV (c :: cs) = none :=
  tryKVv_plain_headfail false 't' (("oken").data) c cs h

/-- Firing of the token rule on an unquoted-value message. -/
theorem fire_token_unq (d : Char) (hd : isDelim d = true) (c0 : Char) (cs0 : List Char)
    (hq : isQuote c0 = false) (hv : ∀ c ∈ c0 :: cs0, safeUnqChar c = true) :
    applyRule tokenRule ((("token").data) ++ d :: (c0 :: cs0)) = ("token=[REDACTED]").data :=
  applyRule_kv_fire tokenSpec _ (("token").data) (c0 :: cs0) (c0 :: cs0) d
    (c0 :: cs0).length (by decide)
    (show tokenSpec.keyMatch ((("token").data) ++ d :: (c0 :: cs0)) =
        some (("token").data).length from
      keyMatchPlain_self (("token").data) (d :: (c0 :: cs0)))
    hd (takeWhile_nil_all _ _ fun c hc => (safeUnq_parts c (hv c hc)).1)
    (Or.inl rfl) (tryValueV_unquoted c0 cs0 hq hv) rfl

/-- Firing of the token rule on a quoted-value message. -/
theorem fire_token_q (d : Char) (hd : isDelim d = true) (v : List Char)
    (hv : ∀ c ∈ v, safeQChar c = true) :
    applyRule tokenRule ((("token").data) ++ d :: '"' :: (v ++ ['"'])) = ("token=[REDACTED]").data :=
  applyRule_kv_fire tokenSpec _ (("token").data) ('"' :: (v ++ ['"'])) v d (v.length + 2)
    (by decide)
    (show tokenSpec.keyMatch ((("token").data) ++ d :: '"' :: (v ++ ['"'])) =
        some (("token").data).length from
      keyMatchPlain_self (("token").data) (d :: '"' :: (v ++ ['"'])))
    hd (by simp +decide [List.takeWhile_cons])
    (Or.inl rfl) (tryValueV_quoted v fun c hc => (safeQ_parts c (hv c hc)).1)
    (by simp [List.length_append, List.length_cons])

/-- Full sanitization of an unquoted-value `token` message. -/
theorem san_token_unq (d : Char) (hd : isDelim d = true) (v : List Char) (hne : v ≠ [])
    (hq0 : isQuote v.headI = false) (hv : ∀ c ∈ v, safeUnqChar c = true) :
    sanitizeList ((("token").data) ++ d :: v) = ("token=[REDACTED]").data := by
  obtain ⟨c0, cs0, rfl⟩ : ∃ a b, v = a :: b := by
    cases v with
    | nil => exact absurd rfl hne
    | cons a b => exact ⟨a, b, rfl⟩
  have hq0' : isQuote c0 = false := hq0
  have hnospace : ∀ c ∈ (("token").data) ++ d :: (c0 :: cs0), jsSpace c = false := by
    intro c hc
    rcases mem_shape _ _ _ _ hc with h | h | h
    · exact (by decide : ∀ c ∈ ("token").data, jsSpace c = false) c h
    · subst h; exact delim_nospace _ hd
    · exact (safeUnq_parts c (hv c h)).1
  rw [sanitizeList_unfold, bearer_id_nospace _ hnospace,
    fire_token_unq d hd c0 cs0 hq0' hv]
  decide

/-- Full sanitization of a quoted-value `token` message. -/
theorem san_token_q (d : Char) (hd : isDelim d = true) (v : List Char)
    (hv : ∀ c ∈ v, safeQChar c = true) (hbf : bearerFree (v ++ ['"']) = true) :
    sanitizeList ((("token").data) ++ d :: '"' :: (v ++ ['"'])) = ("token=[REDACTED]").data := by
  have h1 : applyRule bearerRule ((("token").data) ++ d :: '"' :: (v ++ ['"'])) =
      (("token").data) ++ d :: '"' :: (v ++ ['"']) :=
    bearer_id_parts (("token").data) d '"' (v ++ ['"'])
      (by decide) (delim_noB d hd) (by decide) (bearerFree_tails _ hbf)
  rw [sanitizeList_unfold, h1, fire_token_q d hd v hv]
  decide

theorem id_token_in_secret (d : Char) (rest : List Char)
    (hrest : ∀ c ∈ rest, isDelim c = false) :
    applyRule tokenRule ((("secret").data) ++ d :: rest) = (("secret").data) ++ d :: rest :=
  applyRule_kv_id tokenSpec _ [(("token").data).length] (plain_hlen (("token").data))
    (("secret").data) rest d (by decide) hrest
    (by
      intro kn hkn hle
      simp at hkn
      subst hkn
      exact tryKVv_plain_headfail false 't' (("oken").data) 'e'
        ((("cret").data) ++ d :: rest) (by decide))

/-- The token pass on a `secret` message walks the key and delimiter and
scans only the value. -/
theorem pref_token_in_secret (d : Char) (hd : isDelim d = true) (rest : List Char) :
    applyRule tokenRule ((("secret").data) ++ d :: rest) =
      (("secret").data) ++ d :: applyRule tokenRule rest :=
  applyRule_kv_pref tokenSpec _ [(("token").data).length] (plain_hlen (("token").data))
    (plain_span (("token").data) (by decide))
    (("secret").data) rest d (by decide) hd
    (by
      intro kn hkn hle
      simp at hkn
      subst hkn
      exact tryKVv_plain_headfail false 't' (("oken").data) 'e'
        ((("cret").data) ++ d :: rest) (by decide))

/-- Firing of the secret rule on an unquoted-value message. -/
theorem fire_secret_unq (d : Char) (hd : isDelim d = true) (c0 : Char) (cs0 : List Char)
    (hq : isQuote c0 = false) (hv : ∀ c ∈ c0 :: cs0, safeUnqChar c = true) :
    applyRule secretRule ((("secret").data) ++ d :: (c0 :: cs0)) = ("secret=[REDACTED]").data :=
  applyRule_kv_fire secretSpec _ (("secret").data) (c0 :: cs0) (c0 :: cs0) d
    (c0 :: cs0).length (by decide)
    (show secretSpec.keyMatch ((("secret").data) ++ d :: (c0 :: cs0)) =
        some (("secret").data).length from
      keyMatchPlain_self (("secret").data) (d :: (c0 :: cs0)))
    hd (takeWhile_nil_all _ _ fun c hc => (safeUnq_parts c (hv c hc)).1)
    (Or.inl rfl) (tryValueV_unquoted c0 cs0 hq hv) rfl

/-- Firing of the secret rule on a quoted-value message. -/
theorem fire_secret_q (d : Char) (hd : isDelim d = true) (v : List Char)
    (hv : ∀ c ∈ v, safeQChar c = true) :
    applyRule secretRule ((("secret").data) ++ d :: '"' :: (v ++ ['"'])) = ("secret=[REDACTED]").data :=
  applyRule_kv_fire secretSpec _ (("secret").data) ('"' :: (v ++ ['"'])) v d (v.length + 2)
    (by decide)
    (show secretSpec.keyMatch ((("secret").data) ++ d :: '"' :: (v ++ ['"'])) =
        some (("secret").data).length from
      keyMatchPlain_self (("secret").data) (d :: '"' :: (v ++ ['"'])))
    hd (by simp +decide [List.takeWhile_cons])
    (Or.inl rfl) (tryValueV_quoted v fun c hc => (safeQ_parts c (hv c hc)).1)
    (by simp [List.length_append, List.length_cons])

/-- Full sanitization of an unquoted-value `secret` message: the token pass
may rewrite an inner `token[=:]...` span of the value, after which the
secret rule swallows the whole rewritten value. -/
theorem san_secret_unq (d : Char) (hd : isDelim d = true) (v : List Char) (hne : v ≠ [])
    (hq0 : isQuote v.headI = false) (hv : ∀ c ∈ v, safeUnqChar c = true) :
    sanitizeList ((("secret").data) ++ d :: v) = ("secret=[REDACTED]").data := by
  obtain ⟨c0, cs0, rfl⟩ : ∃ a b, v = a :: b := by
    cases v with
    | nil => exact absurd rfl hne
    | cons a b => exact ⟨a, b, rfl⟩
  have hq0' : isQuote c0 = false := hq0
  have hnospace : ∀ c ∈ (("secret").data) ++ d :: (c0 :: cs0), jsSpace c = false := by
    intro c hc
    rcases mem_shape _ _ _ _ hc with h | h | h
    · exact (by decide : ∀ c ∈ ("secret").data, jsSpace c = false) c h
    · subst h; exact delim_nospace _ hd
    · exact (safeUnq_parts c (hv c h)).1
  obtain ⟨c1, cs1, he1, hq1, hc1o⟩ :=
    pass_pres tokenRule 't' _ rfl (by decide) (by decide) c0 cs0 hv hq0'
  have hc1 : ∀ c ∈ c1 :: cs1, safeUnqChar c = true := he1 ▸ hc1o
  rw [sanitizeList_unfold, bearer_id_nospace _ hnospace,
    pref_token_in_secret d hd (c0 :: cs0), he1,
    fire_secret_unq d hd c1 cs1 hq1 hc1]
  decide

/-- Full sanitization of a quoted-value `secret` message. -/
theorem san_secret_q (d : Char) (hd : isDelim d = true) (v : List Char)
    (hv : ∀ c ∈ v, safeQChar c = true) (hbf : bearerFree (v ++ ['"']) = true) :
    sanitizeList ((("secret").data) ++ d :: '"' :: (v ++ ['"'])) = ("secret=[REDACTED]").data := by
  have h1 : applyRule bearerRule ((("secret").data) ++ d :: '"' :: (v ++ ['"'])) =
      (("secret").data) ++ d :: '"' :: (v ++ ['"']) :=
    bearer_id_parts (("secret").data) d '"' (v ++ ['"'])
      (by decide) (delim_noB d hd) (by decide) (bearerFree_tails _ hbf)
  have hrest : ∀ c ∈ '"' :: (v ++ ['"']), isDelim c = false := hrest_q v hv
  rw [sanitizeList_unfold, h1,
    id_token_in_secret d ('"' :: (v ++ ['"'])) hrest,
    fire_secret_q d hd v hv]
  decide

theorem id_token_in_password (d : Char) (rest : List Char)
    (hrest : ∀ c ∈ rest, isDelim c = false) :
    applyRule tokenRule ((("password").data) ++ d :: rest) = (("password").data) ++ d :: rest :=
  applyRule_kv_id tokenSpec _ [(("token").data).length] (plain_hlen (("token").data))
    (("password").data) rest d (by decide) hrest
    (by
      intro kn hkn hle
      simp at hkn
      subst hkn
      exact tryKVv_plain_headfail false 't' (("oken").data) 's'
        ((("word").data) ++ d :: rest) (by decide))

theorem id_secret_in_password (d : Char) (rest : List Char)
    (hrest : ∀ c ∈ rest, isDelim c = false) :
    applyRule secretRule ((("password").data) ++ d :: rest) = (("password").data) ++ d :: rest :=
  applyRule_kv_id secretSpec _ [(("secret").data).length] (plain_hlen (("secret").data))
    (("password").data) rest d (by decide) hrest
    (by
      intro kn hkn hle
      simp at hkn
      subst hkn
      exact tryKVv_plain_fail2 false 's' 'e' (("cret").data) 's' 's'
        ((("word").data) ++ d :: rest) (by decide) (by decide))

/-- The token pass on a `password` message touches only the value. -/
theorem pref_token_in_password (d : Char) (hd : isDelim d = true) (rest : List Char) :
    applyRule tokenRule ((("password").data) ++ d :: rest) =
      (("password").data) ++ d :: applyRule tokenRule rest :=
  applyRule_kv_pref tokenSpec _ [(("token").data).length] (plain_hlen (("token").data))
    (plain_span (("token").data) (by decide))
    (("password").data) rest d (by decide) hd
    (by
      intro kn hkn hle
      simp at hkn
      subst hkn
      exact tryKVv_plain_headfail false 't' (("oken").data) 's'
        ((("word").data) ++ d :: rest) (by decide))

/-- The secret pass on a `password` message touches only the value. -/
theorem pref_secret_in_password (d : Char) (hd : isDelim d = true) (rest : List Char) :
    applyRule secretRule ((("password").data) ++ d :: rest) =
      (("password").data) ++ d :: applyRule secretRule rest :=
  applyRule_kv_pref secretSpec _ [(("secret").data).length] (plain_hlen (("secret").data))
    (plain_span (("secret").data) (by decide))
    (("password").data) rest d (by decide) hd
    (by
      intro kn hkn hle
      simp at hkn
      subst hkn
      exact tryKVv_plain_fail2 false 's' 'e' (("cret").data) 's' 's'
        ((("word").data) ++ d :: rest) (by decide) (by decide))

/-- Firing of the password rule on an unquoted-value message. -/
theorem fire_password_unq (d : Char) (hd : isDelim d = true) (c0 : Char) (cs0 : List Char)
    (hq : isQuote c0 = false) (hv : ∀ c ∈ c0 :: cs0, safeUnqChar c = true) :
    applyRule passwordRule ((("password").data) ++ d :: (c0 :: cs0)) = ("password=[REDACTED]").data :=
  applyRule_kv_fire passwordSpec _ (("password").data) (c0 :: cs0) (c0 :: cs0) d
    (c0 :: cs0).length (by decide)
    (show passwordSpec.keyMatch ((("password").data) ++ d :: (c0 :: cs0)) =
        some (("password").data).length from
      keyMatchPlain_self (("password").data) (d :: (c0 :: cs0)))
    hd (takeWhile_nil_all _ _ fun c hc => (safeUnq_parts c (hv c hc)).1)
    (Or.inl rfl) (tryValueV_unquoted c0 cs0 hq hv) rfl

/-- Firing of the password rule on a quoted-value message. -/
theorem fire_password_q (d : Char) (hd : isDelim d = true) (v : List Char)
    (hv : ∀ c ∈ v, safeQChar c = true) :
    applyRule passwordRule ((("password").data) ++ d :: '"' :: (v ++ ['"'])) = ("password=[REDACTED]").data :=
  applyRule_kv_fire passwordSpec _ (("password").data) ('"' :: (v ++ ['"'])) v d (v.length + 2)
    (by decide)
    (show passwordSpec.keyMatch ((("password").data) ++ d :: '"' :: (v ++ ['"'])) =
        some (("password").data).length from
      keyMatchPlain_self (("password").data) (d :: '"' :: (v ++ ['"'])))
    hd (by simp +decide [List.takeWhile_cons])
    (Or.inl rfl) (tryValueV_quoted v fun c hc => (safeQ_parts c (hv c hc)).1)
    (by simp [List.length_append, List.length_cons])

/-- Full sanitization of an unquoted-value `password` message. -/
theorem san_password_unq (d : Char) (hd : isDelim d = true) (v : List Char) (hne : v ≠ [])
    (hq0 : isQuote v.headI = false) (hv : ∀ c ∈ v, safeUnqChar c = true) :
    sanitizeList ((("password").data) ++ d :: v) = ("password=[REDACTED]").data := by
  obtain ⟨c0, cs0, rfl⟩ : ∃ a b, v = a :: b := by
    cases v with
    | nil => exact absurd rfl hne
    | cons a b => exact ⟨a, b, rfl⟩
  have hq0' : isQuote c0 = false := hq0
  have hnospace : ∀ c ∈ (("password").data) ++ d :: (c0 :: cs0), jsSpace c = false := by
    intro c hc
    rcases mem_shape _ _ _ _ hc with h | h | h
    · exact (by decide : ∀ c ∈ ("password").data, jsSpace c = false) c h
    · subst h; exact delim_nospace _ hd
    · exact (safeUnq_parts c (hv c h)).1
  obtain ⟨c1, cs1, he1, hq1, hc1o⟩ :=
    pass_pres tokenRule 't' _ rfl (by decide) (by decide) c0 cs0 hv hq0'
  have hc1 : ∀ c ∈ c1 :: cs1, safeUnqChar c = true := he1 ▸ hc1o
  obtain ⟨c2, cs2, he2, hq2, hc2o⟩ :=
    pass_pres secretRule 's' _ rfl (by decide) (by decide) c1 cs1 hc1 hq1
  have hc2 : ∀ c ∈ c2 :: cs2, safeUnqChar c = true := he2 ▸ hc2o
  rw [sanitizeList_unfold, bearer_id_nospace _ hnospace,
    pref_token_in_password d hd (c0 :: cs0), he1,
    pref_secret_in_password d hd (c1 :: cs1), he2,
    fire_password_unq d hd c2 cs2 hq2 hc2]
  decide

/-- Full sanitization of a quoted-value `password` message. -/
theorem san_password_q (d : Char) (hd : isDelim d = true) (v : List Char)
    (hv : ∀ c ∈ v, safeQChar c = true) (hbf : bearerFree (v ++ ['"']) = true) :
    sanitizeList ((("password").data) ++ d :: '"' :: (v ++ ['"'])) = ("password=[REDACTED]").data := by
  have h1 : applyRule bearerRule ((("password").data) ++ d :: '"' :: (v ++ ['"'])) =
      (("password").data) ++ d :: '"' :: (v ++ ['"']) :=
    bearer_id_parts (("password").data) d '"' (v ++ ['"'])
      (by decide) (delim_noB d hd) (by decide) (bearerFree_tails _ hbf)
  have hrest : ∀ c ∈ '"' :: (v ++ ['"']), isDelim c = false := hrest_q v hv
  rw [sanitizeList_unfold, h1,
    id_token_in_password d ('"' :: (v ++ ['"'])) hrest,
    id_secret_in_password d ('"' :: (v ++ ['"'])) hrest,
    fire_password_q d hd v hv]
  decide

theorem id_token_in_api (d : Char) (rest : List Char)
    (hrest : ∀ c ∈ rest, isDelim c = false) :
    applyRule tokenRule ((("api_key").data) ++ d :: rest) = (("api_key").data) ++ d :: rest :=
  applyRule_kv_id tokenSpec _ [(("token").data).length] (plain_hlen (("token").data))
    (("api_key").data) rest d (by decide) hrest
    (by
      intro kn hkn hle
      simp at hkn
      subst hkn
      exact tryKVv_plain_headfail false 't' (("oken").data) 'i'
        ((("_key").data) ++ d :: rest) (by decide))

theorem id_secret_in_api (d : Char) (rest : List Char)
    (hrest : ∀ c ∈ rest, isDelim c = false) :
    applyRule secretRule ((("api_key").data) ++ d :: rest) = (("api_key").data) ++ d :: rest :=
  applyRule_kv_id secretSpec _ [(("secret").data).length] (plain_hlen (("secret").data))
    (("api_key").data) rest d (by decide) hrest
    (by
      intro kn hkn hle
      simp at hkn
      subst hkn
      exact tryKVv_plain_headfail false 's' (("ecret").data) 'p'
        ((("i_key").data) ++ d :: rest) (by decide))

theorem id_password_in_api (d : Char) (rest : List Char)
    (hrest : ∀ c ∈ rest, isDelim c = false) :
    applyRule passwordRule ((("api_key").data) ++ d :: rest) = (("api_key").data) ++ d :: rest :=
  applyRule_kv_id passwordSpec _ [(("password").data).length] (plain_hlen (("password").data))
    (("api_key").data) rest d (by decide) hrest
    (by
      intro kn hkn hle
      simp at hkn
      subst hkn
      exact absurd hle (by decide))

/-- The token pass on an `api_key` message touches only the value. -/
theorem pref_token_in_api (d : Char) (hd : isDelim d = true) (rest : List Char) :
    applyRule tokenRule ((("api_key").data) ++ d :: rest) =
      (("api_key").data) ++ d :: applyRule tokenRule rest :=
  applyRule_kv_pref tokenSpec _ [(("token").data).length] (plain_hlen (("token").data))
    (plain_span (("token").data) (by decide))
    (("api_key").data) rest d (by decide) hd
    (by
      intro kn hkn hle
      simp at hkn
      subst hkn
      exact tryKVv_plain_headfail false 't' (("oken").data) 'i'
        ((("_key").data) ++ d :: rest) (by decide))

/-- The secret pass on an `api_key` message touches only the value. -/
theorem pref_secret_in_api (d : Char) (hd : isDelim d = true) (rest : List Char) :
    applyRule secretRule ((("api_key").data) ++ d :: rest) =
      (("api_key").data) ++ d :: applyRule secretRule rest :=
  applyRule_kv_pref secretSpec _ [(("secret").data).length] (plain_hlen (("secret").data))
    (plain_span (("secret").data) (by decide))
    (("api_key").data) rest d (by decide) hd
    (by
      intro kn hkn hle
      simp at hkn
      subst hkn
      exact tryKVv_plain_headfail false 's' (("ecret").data) 'p'
        ((("i_key").data) ++ d :: rest) (by decide))

/-- The password pass on an `api_key` message touches only the value. -/
theorem pref_password_in_api (d : Char) (hd : isDelim d = true) (rest : List Char) :
    applyRule passwordRule ((("api_key").data) ++ d :: rest) =
      (("api_key").data) ++ d :: applyRule passwordRule rest :=
  applyRule_kv_pref passwordSpec _ [(("password").data).length] (plain_hlen (("password").data))
    (plain_span (("password").data) (by decide))
    (("api_key").data) rest d (by decide) hd
    (by
      intro kn hkn hle
      simp at hkn
      subst hkn
      exact absurd hle (by decide))

/-- Firing of the api rule on an unquoted-value message. -/
theorem fire_api_unq (d : Char) (hd : isDelim d = true) (c0 : Char) (cs0 : List Char)
    (hq : isQuote c0 = false) (hv : ∀ c ∈ c0 :: cs0, safeUnqChar c = true) :
    applyRule apiKeyRule ((("api_key").data) ++ d :: (c0 :: cs0)) = ("api_key=[REDACTED]").data :=
  applyRule_kv_fire apiKeySpec _ (("api_key").data) (c0 :: cs0) (c0 :: cs0) d
    (c0 :: cs0).length (by decide)
    (show apiKeySpec.keyMatch ((("api_key").data) ++ d :: (c0 :: cs0)) =
        some (("api_key").data).length from
      keyMatchApi_self (d :: (c0 :: cs0)))
    hd (takeWhile_nil_all _ _ fun c hc => (safeUnq_parts c (hv c hc)).1)
    (Or.inl rfl) (tryValueV_unquoted c0 cs0 hq hv) rfl

/-- Firing of the api rule on a quoted-value message. -/
theorem fire_api_q (d : Char) (hd : isDelim d = true) (v : List Char)
    (hv : ∀ c ∈ v, safeQChar c = true) :
    applyRule apiKeyRule ((("api_key").data) ++ d :: '"' :: (v ++ ['"'])) = ("api_key=[REDACTED]").data :=
  applyRule_kv_fire apiKeySpec _ (("api_key").data) ('"' :: (v ++ ['"'])) v d (v.length + 2)
    (by decide)
    (show apiKeySpec.keyMatch ((("api_key").data) ++ d :: '"' :: (v ++ ['"'])) =
        some (("api_key").data).length from
      keyMatchApi_self (d :: '"' :: (v ++ ['"'])))
    hd (by simp +decide [List.takeWhile_cons])
    (Or.inl rfl) (tryValueV_quoted v fun c hc => (safeQ_parts c (hv c hc)).1)
    (by simp [List.length_append, List.length_cons])

/-- Full sanitization of an unquoted-value `api_key` message. -/
theorem san_api_unq (d : Char) (hd : isDelim d = true) (v : List Char) (hne : v ≠ [])
    (hq0 : isQuote v.headI = false) (hv : ∀ c ∈ v, safeUnqChar c = true) :
    sanitizeList ((("api_key").data) ++ d :: v) = ("api_key=[REDACTED]").data := by
  obtain ⟨c0, cs0, rfl⟩ : ∃ a b, v = a :: b := by
    cases v with
    | nil => exact absurd rfl hne
    | cons a b => exact ⟨a, b, rfl⟩
  have hq0' : isQuote c0 = false := hq0
  have hnospace : ∀ c ∈ (("api_key").data) ++ d :: (c0 :: cs0), jsSpace c = false := by
    intro c hc
    rcases mem_shape _ _ _ _ hc with h | h | h
    · exact (by decide : ∀ c ∈ ("api_key").data, jsSpace c = false) c h
    · subst h; exact delim_nospace _ hd
    · exact (safeUnq_parts c (hv c h)).1
  obtain ⟨c1, cs1, he1, hq1, hc1o⟩ :=
    pass_pres tokenRule 't' _ rfl (by decide) (by decide) c0 cs0 hv hq0'
  have hc1 : ∀ c ∈ c1 :: cs1, safeUnqChar c = true := he1 ▸ hc1o
  obtain ⟨c2, cs2, he2, hq2, hc2o⟩ :=
    pass_pres secretRule 's' _ rfl (by decide) (by decide) c1 cs1 hc1 hq1
  have hc2 : ∀ c ∈ c2 :: cs2, safeUnqChar c = true := he2 ▸ hc2o
  obtain ⟨c3, cs3, he3, hq3, hc3o⟩ :=
    pass_pres passwordRule 'p' _ rfl (by decide) (by decide) c2 cs2 hc2 hq2
  have hc3 : ∀ c ∈ c3 :: cs3, safeUnqChar c = true := he3 ▸ hc3o
  rw [sanitizeList_unfold, bearer_id_nospace _ hnospace,
    pref_token_in_api d hd (c0 :: cs0), he1,
    pref_secret_in_api d hd (c1 :: cs1), he2,
    pref_password_in_api d hd (c2 :: cs2), he3,
    fire_api_unq d hd c3 cs3 hq3 hc3]
  decide

/-- Full sanitization of a quoted-value `api_key` message. -/
theorem san_api_q (d : Char) (hd : isDelim d = true) (v : List Char)
    (hv : ∀ c ∈ v, safeQChar c = true) (hbf : bearerFree (v ++ ['"']) = true) :
    sanitizeList ((("api_key").data) ++ d :: '"' :: (v ++ ['"'])) = ("api_key=[REDACTED]").data := by
  have h1 : applyRule bearerRule ((("api_key").data) ++ d :: '"' :: (v ++ ['"'])) =
      (("api_key").data) ++ d :: '"' :: (v ++ ['"']) :=
    bearer_id_parts (("api_key").data) d '"' (v ++ ['"'])
      (by decide) (delim_noB d hd) (by decide) (bearerFree_tails _ hbf)
  have hrest : ∀ c ∈ '"' :: (v ++ ['"']), isDelim c = false := hrest_q v hv
  rw [sanitizeList_unfold, h1,
    id_token_in_api d ('"' :: (v ++ ['"'])) hrest,
    id_secret_in_api d ('"' :: (v ++ ['"'])) hrest,
    id_password_in_api d ('"' :: (v ++ ['"'])) hrest,
    fire_api_q d hd v hv]
  decide

theorem id_token_in_auth (d : Char) (rest : List Char)
    (hrest : ∀ c ∈ rest, isDelim c = false) :
    applyRule tokenRule ((("authorization").data) ++ d :: rest) = (("authorization").data) ++ d :: rest :=
  applyRule_kv_id tokenSpec _ [(("token").data).length] (plain_hlen (("token").data))
    (("authorization").data) rest d (by decide) hrest
    (by
      intro kn hkn hle
      simp at hkn
      subst hkn
      exact tryKVv_plain_headfail false 't' (("oken").data) 'a'
        ((("tion").data) ++ d :: rest) (by decide))

theorem id_secret_in_auth (d : Char) (rest : List Char)
    (hrest : ∀ c ∈ rest, isDelim c = false) :
    applyRule secretRule ((("authorization").data) ++ d :: rest) = (("authorization").data) ++ d :: rest :=
  applyRule_kv_id secretSpec _ [(("secret").data).length] (plain_hlen (("secret").data))
    (("authorization").data) rest d (by decide) hrest
    (by
      intro kn hkn hle
      simp at hkn
      subst hkn
      exact tryKVv_plain_headfail false 's' (("ecret").data) 'z'
        ((("ation").data) ++ d :: rest) (by decide))

theorem id_password_in_auth (d : Char) (rest : List Char)
    (hrest : ∀ c ∈ rest, isDelim c = false) :
    applyRule passwordRule ((("authorization").data) ++ d :: rest) = (("authorization").data) ++ d :: rest :=
  applyRule_kv_id passwordSpec _ [(("password").data).length] (plain_hlen (("password").data))
    (("authorization").data) rest d (by decide) hrest
    (by
      intro kn hkn hle
      simp at hkn
      subst hkn
      exact tryKVv_plain_headfail false 'p' (("assword").data) 'r'
        ((("ization").data) ++ d :: rest) (by decide))

theorem id_api_in_auth (d : Char) (rest : List Char)
    (hrest : ∀ c ∈ rest, isDelim c = false) :
    applyRule apiKeyRule ((("authorization").data) ++ d :: rest) =
      (("authorization").data) ++ d :: rest :=
  applyRule_kv_id apiKeySpec _
    [(("api").data).length + 1 + (("key").data).length,
     (("api").data).length + (("key").data).length]
    (optsep_hlen (("api").data) (("key").data))
    (("authorization").data) rest d (by decide) hrest
    (by
      intro kn hkn hle
      simp at hkn
      rcases hkn with h | h <;> subst h
      · exact tryKVv_optsep_headfail false 'a' (("pi").data) (("key").data) 'i'
          ((("zation").data) ++ d :: rest) (by decide)
      · exact tryKVv_optsep_headfail false 'a' (("pi").data) (("key").data) 'z'
          ((("ation").data) ++ d :: rest) (by decide))

/-- The token pass on an `authorization` message touches only the value. -/
theorem pref_token_in_auth (d : Char) (hd : isDelim d = true) (rest : List Char) :
    applyRule tokenRule ((("authorization").data) ++ d :: rest) =
      (("authorization").data) ++ d :: applyRule tokenRule rest :=
  applyRule_kv_pref tokenSpec _ [(("token").data).length] (plain_hlen (("token").data))
    (plain_span (("token").data) (by decide))
    (("authorization").data) rest d (by decide) hd
    (by
      intro kn hkn hle
      simp at hkn
      subst hkn
      exact tryKVv_plain_headfail false 't' (("oken").data) 'a'
        ((("tion").data) ++ d :: rest) (by decide))

/-- The secret pass on an `authorization` message touches only the value. -/
theorem pref_secret_in_auth (d : Char) (hd : isDelim d = true) (rest : List Char) :
    applyRule secretRule ((("authorization").data) ++ d :: rest) =
      (("authorization").data) ++ d :: applyRule secretRule rest :=
  applyRule_kv_pref secretSpec _ [(("secret").data).length] (plain_hlen (("secret").data))
    (plain_span (("secret").data) (by decide))
    (("authorization").data) rest d (by decide) hd
    (by
      intro kn hkn hle
      simp at hkn
      subst hkn
      exact tryKVv_plain_headfail false 's' (("ecret").data) 'z'
        ((("ation").data) ++ d :: rest) (by decide))

/-- The password pass on an `authorization` message touches only the value. -/
theorem pref_password_in_auth (d : Char) (hd : isDelim d = true) (rest : List Char) :
    applyRule passwordRule ((("authorization").data) ++ d :: rest) =
      (("authorization").data) ++ d :: applyRule passwordRule rest :=
  applyRule_kv_pref passwordSpec _ [(("password").data).length] (plain_hlen (("password").data))
    (plain_span (("password").data) (by decide))
    (("authorization").data) rest d (by decide) hd
    (by
      intro kn hkn hle
      simp at hkn
      subst hkn
      exact tryKVv_plain_headfail false 'p' (("assword").data) 'r'
        ((("ization").data) ++ d :: rest) (by decide))

/-- The api pass on an `authorization` message touches only the value. -/
theorem pref_api_in_auth (d : Char) (hd : isDelim d = true) (rest : List Char) :
    applyRule apiKeyRule ((("authorization").data) ++ d :: rest) =
      (("authorization").data) ++ d :: applyRule apiKeyRule rest :=
  applyRule_kv_pref apiKeySpec _
    [(("api").data).length + 1 + (("key").data).length,
     (("api").data).length + (("key").data).length]
    (optsep_hlen (("api").data) (("key").data))
    (optsep_span (("api").data) (("key").data) (by decide) (by decide))
    (("authorization").data) rest d (by decide) hd
    (by
      intro kn hkn hle
      simp at hkn
      rcases hkn with h | h <;> subst h
      · exact tryKVv_optsep_headfail false 'a' (("pi").data) (("key").data) 'i'
          ((("zation").data) ++ d :: rest) (by decide)
      · exact tryKVv_optsep_headfail false 'a' (("pi").data) (("key").data) 'z'
          ((("ation").data) ++ d :: rest) (by decide))

/-- Firing of the auth rule on an unquoted-value message. -/
theorem fire_auth_unq (d : Char) (hd : isDelim d = true) (c0 : Char) (cs0 : List Char)
    (hq : isQuote c0 = false) (hv : ∀ c ∈ c0 :: cs0, safeUnqChar c = true) :
    applyRule authRule ((("authorization").data) ++ d :: (c0 :: cs0)) = ("authorization=[REDACTED]").data :=
  applyRule_kv_fire authSpec _ (("authorization").data) (c0 :: cs0) (c0 :: cs0) d
    (c0 :: cs0).length (by decide)
    (show authSpec.keyMatch ((("authorization").data) ++ d :: (c0 :: cs0)) =
        some (("authorization").data).length from
      keyMatchPlain_self (("authorization").data) (d :: (c0 :: cs0)))
    hd (takeWhile_nil_all _ _ fun c hc => (safeUnq_parts c (hv c hc)).1)
    (Or.inr (bearerNext_false_nospace (c0 :: cs0)
      fun c hc => (safeUnq_parts c (hv c hc)).1))
    (tryValueV_unquoted c0 cs0 hq hv) rfl

/-- Firing of the auth rule on a quoted-value message. -/
theorem fire_auth_q (d : Char) (hd : isDelim d = true) (v : List Char)
    (hv : ∀ c ∈ v, safeQChar c = true) :
    applyRule authRule ((("authorization").data) ++ d :: '"' :: (v ++ ['"'])) = ("authorization=[REDACTED]").data :=
  applyRule_kv_fire authSpec _ (("authorization").data) ('"' :: (v ++ ['"'])) v d (v.length + 2)
    (by decide)
    (show authSpec.keyMatch ((("authorization").data) ++ d :: '"' :: (v ++ ['"'])) =
        some (("authorization").data).length from
      keyMatchPlain_self (("authorization").data) (d :: '"' :: (v ++ ['"'])))
    hd (by simp +decide [List.takeWhile_cons])
    (Or.inr (bearerNext_false_headQuote (v ++ ['"'])))
    (tryValueV_quoted v fun c hc => (safeQ_parts c (hv c hc)).1)
    (by simp [List.length_append, List.length_cons])

/-- Full sanitization of an unquoted-value `authorization` message. -/
theorem san_auth_unq (d : Char) (hd : isDelim d = true) (v : List Char) (hne : v ≠ [])
    (hq0 : isQuote v.headI = false) (hv : ∀ c ∈ v, safeUnqChar c = true) :
    sanitizeList ((("authorization").data) ++ d :: v) = ("authorization=[REDACTED]").data := by
  obtain ⟨c0, cs0, rfl⟩ : ∃ a b, v = a :: b := by
    cases v with
    | nil => exact absurd rfl hne
    | cons a b => exact ⟨a, b, rfl⟩
  have hq0' : isQuote c0 = false := hq0
  have hnospace : ∀ c ∈ (("authorization").data) ++ d :: (c0 :: cs0), jsSpace c = false := by
    intro c hc
    rcases mem_shape _ _ _ _ hc with h | h | h
    · exact (by decide : ∀ c ∈ ("authorization").data, jsSpace c = false) c h
    · subst h; exact delim_nospace _ hd
    · exact (safeUnq_parts c (hv c h)).1
  obtain ⟨c1, cs1, he1, hq1, hc1o⟩ :=
    pass_pres tokenRule 't' _ rfl (by decide) (by decide) c0 cs0 hv hq0'
  have hc1 : ∀ c ∈ c1 :: cs1, safeUnqChar c = true := he1 ▸ hc1o
  obtain ⟨c2, cs2, he2, hq2, hc2o⟩ :=
    pass_pres secretRule 's' _ rfl (by decide) (by decide) c1 cs1 hc1 hq1
  have hc2 : ∀ c ∈ c2 :: cs2, safeUnqChar c = true := he2 ▸ hc2o
  obtain ⟨c3, cs3, he3, hq3, hc3o⟩ :=
    pass_pres passwordRule 'p' _ rfl (by decide) (by decide) c2 cs2 hc2 hq2
  have hc3 : ∀ c ∈ c3 :: cs3, safeUnqChar c = true := he3 ▸ hc3o
  obtain ⟨c4, cs4, he4, hq4, hc4o⟩ :=
    pass_pres apiKeyRule 'a' _ rfl (by decide) (by decide) c3 cs3 hc3 hq3
  have hc4 : ∀ c ∈ c4 :: cs4, safeUnqChar c = true := he4 ▸ hc4o
  rw [sanitizeList_unfold, bearer_id_nospace _ hnospace,
    pref_token_in_auth d hd (c0 :: cs0), he1,
    pref_secret_in_auth d hd (c1 :: cs1), he2,
    pref_password_in_auth d hd (c2 :: cs2), he3,
    pref_api_in_auth d hd (c3 :: cs3), he4,
    fire_auth_unq d hd c4 cs4 hq4 hc4]
  decide

/-- Full sanitization of a quoted-value `authorization` message. -/
theorem san_auth_q (d : Char) (hd : isDelim d = true) (v : List Char)
    (hv : ∀ c ∈ v, safeQChar c = true) (hbf : bearerFree (v ++ ['"']) = true) :
    sanitizeList ((("authorization").data) ++ d :: '"' :: (v ++ ['"'])) = ("authorization=[REDACTED]").data := by
  have h1 : applyRule bearerRule ((("authorization").data) ++ d :: '"' :: (v ++ ['"'])) =
      (("authorization").data) ++ d :: '"' :: (v ++ ['"']) :=
    bearer_id_parts (("authorization").data) d '"' (v ++ ['"'])
      (by decide) (delim_noB d hd) (by decide) (bearerFree_tails _ hbf)
  have hrest : ∀ c ∈ '"' :: (v ++ ['"']), isDelim c = false := hrest_q v hv
  rw [sanitizeList_unfold, h1,
    id_token_in_auth d ('"' :: (v ++ ['"'])) hrest,
    id_secret_in_auth d ('"' :: (v ++ ['"'])) hrest,
    id_password_in_auth d ('"' :: (v ++ ['"'])) hrest,
    id_api_in_auth d ('"' :: (v ++ ['"'])) hrest,
    fire_auth_q d hd v hv]
  decide

/-- Full sanitization of an unquoted-value `access_token` message: the `token` rule
fires at offset 7 inside the key and already rewrites the value. -/
theorem san_access_unq (d : Char) (hd : isDelim d = true) (v : List Char) (hne : v ≠ [])
    (hq0 : isQuote v.headI = false) (hv : ∀ c ∈ v, safeUnqChar c = true) :
    sanitizeList ((("access_token").data) ++ d :: v) = ("access_token=[REDACTED]").data := by
  obtain ⟨c0, cs0, rfl⟩ : ∃ a b, v = a :: b := by
    cases v with
    | nil => exact absurd rfl hne
    | cons a b => exact ⟨a, b, rfl⟩
  have hq0' : isQuote c0 = false := hq0
  have hnospace : ∀ c ∈ (("access_token").data) ++ d :: (c0 :: cs0), jsSpace c = false := by
    intro c hc
    rcases mem_shape _ _ _ _ hc with h | h | h
    · exact (by decide : ∀ c ∈ ("access_token").data, jsSpace c = false) c h
    · subst h; exact delim_nospace _ hd
    · exact (safeUnq_parts c (hv c h)).1
  have hwalk : ∀ i, i < (("access_").data).length →
      tokenRule.tryV (((("access_").data) ++ ((("token").data) ++ d :: (c0 :: cs0))).drop i) = none := by
    intro i hi
    have hplen : (("access_").data).length = 7 := rfl
    rw [hplen] at hi
    interval_cases i <;> exact tryV_token_headfail _ _ (by decide)
  have h2 : applyRule tokenRule ((("access_token").data) ++ d :: (c0 :: cs0)) =
      ("access_token=[REDACTED]").data := by
    rw [show (("access_token").data) ++ d :: (c0 :: cs0) =
      (("access_").data) ++ ((("token").data) ++ d :: (c0 :: cs0)) from rfl]
    rw [applyRule_walk tokenRule _ _ hwalk, fire_token_unq d hd c0 cs0 hq0' hv]
    decide
  rw [sanitizeList_unfold, bearer_id_nospace _ hnospace, h2]
  decide

/-- Full sanitization of a quoted-value `access_token` message. -/
theorem san_access_q (d : Char) (hd : isDelim d = true) (v : List Char)
    (hv : ∀ c ∈ v, safeQChar c = true) (hbf : bearerFree (v ++ ['"']) = true) :
    sanitizeList ((("access_token").data) ++ d :: '"' :: (v ++ ['"'])) = ("access_token=[REDACTED]").data := by
  have h1 : applyRule bearerRule ((("access_token").data) ++ d :: '"' :: (v ++ ['"'])) =
      (("access_token").data) ++ d :: '"' :: (v ++ ['"']) :=
    bearer_id_parts (("access_token").data) d '"' (v ++ ['"'])
      (by decide) (delim_noB d hd) (by decide) (bearerFree_tails _ hbf)
  have hwalk : ∀ i, i < (("access_").data).length →
      tokenRule.tryV (((("access_").data) ++
        ((("token").data) ++ d :: '"' :: (v ++ ['"']))).drop i) = none := by
    intro i hi
    have hplen : (("access_").data).length = 7 := rfl
    rw [hplen] at hi
    interval_cases i <;> exact tryV_token_headfail _ _ (by decide)
  have h2 : applyRule tokenRule ((("access_token").data) ++ d :: '"' :: (v ++ ['"'])) =
      ("access_token=[REDACTED]").data := by
    rw [show (("access_token").data) ++ d :: '"' :: (v ++ ['"']) =
      (("access_").data) ++ ((("token").data) ++ d :: '"' :: (v ++ ['"'])) from rfl]
    rw [applyRule_walk tokenRule _ _ hwalk, fire_token_q d hd v hv]
    decide
  rw [sanitizeList_unfold, h1, h2]
  decide

/-- Full sanitization of an unquoted-value `refresh_token` message: the `token` rule
fires at offset 8 inside the key and already rewrites the value. -/
theorem san_refresh_unq (d : Char) (hd : isDelim d = true) (v : List Char) (hne : v ≠ [])
    (hq0 : isQuote v.headI = false) (hv : ∀ c ∈ v, safeUnqChar c = true) :
    sanitizeList ((("refresh_token").data) ++ d :: v) = ("refresh_token=[REDACTED]").data := by
  obtain ⟨c0, cs0, rfl⟩ : ∃ a b, v = a :: b := by
    cases v with
    | nil => exact absurd rfl hne
    | cons a b => exact ⟨a, b, rfl⟩
  have hq0' : isQuote c0 = false := hq0
  have hnospace : ∀ c ∈ (("refresh_token").data) ++ d :: (c0 :: cs0), jsSpace c = false := by
    intro c hc
    rcases mem_shape _ _ _ _ hc with h | h | h
    · exact (by decide : ∀ c ∈ ("refresh_token").data, jsSpace c = false) c h
    · subst h; exact delim_nospace _ hd
    · exact (safeUnq_parts c (hv c h)).1
  have hwalk : ∀ i, i < (("refresh_").data).length →
      tokenRule.tryV (((("refresh_").data) ++ ((("token").data) ++ d :: (c0 :: cs0))).drop i) = none := by
    intro i hi
    have hplen : (("refresh_").data).length = 8 := rfl
    rw [hplen] at hi
    interval_cases i <;> exact tryV_token_headfail _ _ (by decide)
  have h2 : applyRule tokenRule ((("refresh_token").data) ++ d :: (c0 :: cs0)) =
      ("refresh_token=[REDACTED]").data := by
    rw [show (("refresh_token").data) ++ d :: (c0 :: cs0) =
      (("refresh_").data) ++ ((("token").data) ++ d :: (c0 :: cs0)) from rfl]
    rw [applyRule_walk tokenRule _ _ hwalk, fire_token_unq d hd c0 cs0 hq0' hv]
    decide
  rw [sanitizeList_unfold, bearer_id_nospace _ hnospace, h2]
  decide

/-- Full sanitization of a quoted-value `refresh_token` message. -/
theorem san_refresh_q (d : Char) (hd : isDelim d = true) (v : List Char)
    (hv : ∀ c ∈ v, safeQChar c = true) (hbf : bearerFree (v ++ ['"']) = true) :
    sanitizeList ((("refresh_token").data) ++ d :: '"' :: (v ++ ['"'])) = ("refresh_token=[REDACTED]").data := by
  have h1 : applyRule bearerRule ((("refresh_token").data) ++ d :: '"' :: (v ++ ['"'])) =
      (("refresh_token").data) ++ d :: '"' :: (v ++ ['"']) :=
    bearer_id_parts (("refresh_token").data) d '"' (v ++ ['"'])
      (by decide) (delim_noB d hd) (by decide) (bearerFree_tails _ hbf)
  have hwalk : ∀ i, i < (("refresh_").data).length →
      tokenRule.tryV (((("refresh_").data) ++
        ((("token").data) ++ d :: '"' :: (v ++ ['"']))).drop i) = none := by
    intro i hi
    have hplen : (("refresh_").data).length = 8 := rfl
    rw [hplen] at hi
    interval_cases i <;> exact tryV_token_headfail _ _ (by decide)
  have h2 : applyRule tokenRule ((("refresh_token").data) ++ d :: '"' :: (v ++ ['"'])) =
      ("refresh_token=[REDACTED]").data := by
    rw [show (("refresh_token").data) ++ d :: '"' :: (v ++ ['"']) =
      (("refresh_").data) ++ ((("token").data) ++ d :: '"' :: (v ++ ['"'])) from rfl]
    rw [applyRule_walk tokenRule _ _ hwalk, fire_token_q d hd v hv]
    decide
  rw [sanitizeList_unfold, h1, h2]
  decide

/-! ## Claim C2: sanitization leaves no raw secret value reachable -/

/-- C2 counterexample: the claim fails as a property of every input string.
For the message `token="x'y z"`, the quoted-value pattern ends the value at
the first quote character of either kind, so the embedded single quote
terminates the match early and the tail `y z"` of the quoted secret survives
sanitization, immediately following the sentinel; the detector finds a
non-sentinel value after `token=` in the output. -/
theorem c2_reachable_secret_counterexample :
    sanitizeList cexC2 = (("token=[REDACTED]").data ++ ['y', ' ', 'z', '"']) ∧
    noRawSecret (sanitizeList cexC2) = false := by
  constructor <;> decide

/-- C2 as amended: for each of the seven key families, with `=` or `:` as
delimiter, sanitization maps the whole message `key delim value` to exactly
`key=[REDACTED]` — leaving no raw secret value reachable after the key, as
the detector confirms — both for unquoted values (non-empty, free of the
whitespace/comma/semicolon terminators of `[^\s,;]+`, and not beginning
with a quote character; inner quotes and inner `=`/`:` are allowed) and for
double-quoted values containing no quote character, no `=`/`:` and no
Bearer-token match, but otherwise arbitrary (spaces, commas, semicolons and
`b` characters allowed).  Each restriction is forced by the code: a quoted
value with an embedded quote of the other kind is redacted only up to that
quote (the counterexample above), a leading quote of an unquoted value makes
it behave as a quoted one, and an inner `key=value` or `Bearer` match inside
a quoted value can consume the closing quote and leave earlier words of the
secret raw. -/
theorem c2_sanitize_redacts_families (f : Family) (hf : f ∈ families) (d : Char)
    (hd : isDelim d = true) (v : List Char) :
    ((v ≠ []) → isQuote v.headI = false → (∀ c ∈ v, safeUnqChar c = true) →
      sanitizeList (mkUnq f d v) = f.out ∧
      noRawSecret (sanitizeList (mkUnq f d v)) = true) ∧
    ((∀ c ∈ v, safeQChar c = true) → bearerFree (v ++ ['"']) = true →
      sanitizeList (mkQuoted f d v) = f.out ∧
      noRawSecret (sanitizeList (mkQuoted f d v)) = true) := by
  fin_cases hf
  · exact ⟨fun hne hq0 hv => by
        rw [show mkUnq famToken d v = (("token").data) ++ d :: v from rfl,
          san_token_unq d hd v hne hq0 hv]
        exact ⟨rfl, by decide⟩,
      fun hv hbf => by
        rw [show mkQuoted famToken d v = (("token").data) ++ d :: '"' :: (v ++ ['"']) from rfl,
          san_token_q d hd v hv hbf]
        exact ⟨rfl, by decide⟩⟩
  · exact ⟨fun hne hq0 hv => by
        rw [show mkUnq famSecret d v = (("secret").data) ++ d :: v from rfl,
          san_secret_unq d hd v hne hq0 hv]
        exact ⟨rfl, by decide⟩,
      fun hv hbf => by
        rw [show mkQuoted famSecret d v = (("secret").data) ++ d :: '"' :: (v ++ ['"']) from rfl,
          san_secret_q d hd v hv hbf]
        exact ⟨rfl, by decide⟩⟩
  · exact ⟨fun hne hq0 hv => by
        rw [show mkUnq famPassword d v = (("password").data) ++ d :: v from rfl,
          san_password_unq d hd v hne hq0 hv]
        exact ⟨rfl, by decide⟩,
      fun hv hbf => by
        rw [show mkQuoted famPassword d v = (("password").data) ++ d :: '"' :: (v ++ ['"']) from rfl,
          san_password_q d hd v hv hbf]
        exact ⟨rfl, by decide⟩⟩
  · exact ⟨fun hne hq0 hv => by
        rw [show mkUnq famApiKey d v = (("api_key").data) ++ d :: v from rfl,
          san_api_unq d hd v hne hq0 hv]
        exact ⟨rfl, by decide⟩,
      fun hv hbf => by
        rw [show mkQuoted famApiKey d v = (("api_key").data) ++ d :: '"' :: (v ++ ['"']) from rfl,
          san_api_q d hd v hv hbf]
        exact ⟨rfl, by decide⟩⟩
  · exact ⟨fun hne hq0 hv => by
        rw [show mkUnq famAuth d v = (("authorization").data) ++ d :: v from rfl,
          san_auth_unq d hd v hne hq0 hv]
        exact ⟨rfl, by decide⟩,
      fun hv hbf => by
        rw [show mkQuoted famAuth d v = (("authorization").data) ++ d :: '"' :: (v ++ ['"']) from rfl,
          san_auth_q d hd v hv hbf]
        exact ⟨rfl, by decide⟩⟩
  · exact ⟨fun hne hq0 hv => by
        rw [show mkUnq famAccess d v = (("access_token").data) ++ d :: v from rfl,
          san_access_unq d hd v hne hq0 hv]
        exact ⟨rfl, by decide⟩,
      fun hv hbf => by
        rw [show mkQuoted famAccess d v = (("access_token").data) ++ d :: '"' :: (v ++ ['"']) from rfl,
          san_access_q d hd v hv hbf]
        exact ⟨rfl, by decide⟩⟩
  · exact ⟨fun hne hq0 hv => by
        rw [show mkUnq famRefresh d v = (("refresh_token").data) ++ d :: v from rfl,
          san_refresh_unq d hd v hne hq0 hv]
        exact ⟨rfl, by decide⟩,
      fun hv hbf => by
        rw [show mkQuoted famRefresh d v = (("refresh_token").data) ++ d :: '"' :: (v ++ ['"']) from rfl,
          san_refresh_q d hd v hv hbf]
        exact ⟨rfl, by decide⟩⟩

/-- Witness for C2: an unquoted `token` value `a=b` containing an inner
delimiter, and a quoted `password` value `abc d` containing a space and a
`b`. -/
theorem c2_sanitize_redacts_families_witness :
    (sanitizeList (mkUnq famToken '=' ['a', '=', 'b']) = famToken.out ∧
      noRawSecret (sanitizeList (mkUnq famToken '=' ['a', '=', 'b'])) = true) ∧
    (sanitizeList (mkQuoted famPassword '=' ['a', 'b', 'c', ' ', 'd']) = famPassword.out ∧
      noRawSecret (sanitizeList (mkQuoted famPassword '=' ['a', 'b', 'c', ' ', 'd'])) = true) :=
  ⟨(c2_sanitize_redacts_families famToken (by decide) '=' (by decide) ['a', '=', 'b']).1
      (by decide) (by decide) (by decide),
   (c2_sanitize_redacts_families famPassword (by decide) '=' (by decide)
      ['a', 'b', 'c', ' ', 'd']).2 (by decide) (by decide)⟩

end XivLog
